import Mathlib

/-! selpg (SELect PaGes): a shallow embedding of `selpg.go`.

The development follows the source file `selpg.go`:

* `sp_args` is the configuration record `selpg_args`;
* `process_args` is the validation part of `process_args` (everything after
  `flag.Parse()` has returned): its inputs are `os.Args`, the values the flag
  library stored in the record, the positional arguments `flag.Args()` and the
  answer of `os.Stat`;
* `process_args_cmdline` is the whole of `process_args`: `flag.Parse()` first,
  which may stop the program by itself, then the checks of `process_args` on
  what the parser has bound. The flag library is not part of the repository:
  its answer on a command line is an argument of the embedding;
* `process_input` is the filter of `process_input` (the two `for` loops and the
  final range warnings), run on the bytes of the opened input stream and on a
  sink whose `Write` may fail.

Go's `int` is 64 bits wide here (`1 << 32` would not compile otherwise); the
counters and the page numbers are modelled by `Int`, which contains that range.
-/

namespace Selpg

/-! ## Data model -/

/-- A byte of the input or output stream, as a natural number (values below 256). -/
abbrev Byte := Nat

/-- The record `selpg_args` (`sp_args` in the source). -/
structure sp_args where
  start_page : Int
  end_page : Int
  in_filename : String
  page_len : Int
  page_type : String
  print_dest : String
  deriving DecidableEq, Repr

/-- The bound the source calls `INT_MAX`: `1 << 32`. -/
def INT_MAX : Int := 2 ^ 32

/-- Go's rendering of an `int` under the verb `%s`, as in
`fmt.Fprintf(os.Stderr, "%s: invalid start page %s\n", progname, sa.start_page)`. -/
def badVerbS (n : Int) : String := "%!s(int=" ++ toString n ++ ")"

/-! ## `process_args` -/

/-- What `os.Stat` answers for a path: no error, an error for which
`os.IsNotExist` holds, or some other error. -/
inductive StatResult where
  | found
  | notExist
  | otherError
  deriving DecidableEq, Repr

/-- How `process_args` ends: it returns with the record filled in, it calls
`os.Exit code` after writing `msg` to the standard error stream (`usage` tells
whether `flag.Usage()` was called before exiting), or the Go runtime stops the
program because a slice index is out of range. -/
inductive ArgsOutcome where
  | returned (sa : sp_args)
  | exited (code : Nat) (msg : String) (usage : Bool)
  | indexOutOfRange (index len : Nat)
  deriving DecidableEq, Repr

/-- The body of `process_args` after `flag.Parse()` has returned (source lines
82 to 138): `args` is `os.Args`, `sa` holds the values bound to the flags,
`positional` is `flag.Args()` and `stat` is `os.Stat`. The checks are made in
the order of the source. The whole function, `flag.Parse()` included, is
`process_args_cmdline`. -/
def process_args (progname : String) (args : List String) (sa : sp_args)
    (positional : List String) (stat : String → StatResult) : ArgsOutcome :=
  if args.length < 3 then
    .exited 1 (progname ++ ": not enough arguments\n") true
  else
    match args.get? 1 with
    | none => .indexOutOfRange 1 args.length
    | some a1 =>
      if a1 ≠ "-s" then
        .exited 2 (progname ++ ": 1st arg should be -s start_page\n") true
      else if sa.start_page < 1 ∨ sa.start_page > INT_MAX - 1 then
        .exited 3 (progname ++ ": invalid start page " ++ badVerbS sa.start_page ++ "\n") true
      else
        match args.get? 3 with
        | none => .indexOutOfRange 3 args.length
        | some a3 =>
          if a3 ≠ "-e" then
            .exited 2 (progname ++ ": 2nd arg should be -e end_page\n") true
          else if sa.end_page < 1 ∨ sa.end_page > INT_MAX - 1
              ∨ sa.end_page < sa.start_page then
            .exited 3 (progname ++ ": invalid end page " ++ badVerbS sa.end_page ++ "\n") true
          else if sa.page_len < 1 ∨ sa.page_len > INT_MAX - 1 then
            .exited 3 (progname ++ ": invalid page length " ++ badVerbS sa.page_len ++ "\n") true
          else
            match positional with
            | [name] =>
              if stat name = .notExist then
                .exited 4 (progname ++ ": input file \"" ++ name ++ "\" does not exist\n") false
              else
                .returned { sa with in_filename := name }
            | _ => .returned sa

/-- How `flag.Parse()` (source line 75) ends on a command line. It returns,
with the flag values bound to the record `sa` and the positional arguments
kept for `flag.Args()`; or the flag library stops the program by itself with
`os.Exit code` (an unknown flag, a value that is no 64-bit integer, a flag
without its value, a request for help), after writing `msg` and, when `usage`
holds, the usage; `sa` is then the record as far as the parser had filled it. -/
inductive ParseOutcome where
  | parsed (sa : sp_args) (positional : List String)
  | stopped (sa : sp_args) (code : Nat) (msg : String) (usage : Bool)
  deriving DecidableEq, Repr

/-- The whole of `process_args` on the command line `args` (`os.Args`):
`flag.Parse()` runs first (source line 75) and the checks of lines 82 to 138
are reached only when it returns; `flag_parse` is the flag library on this
flag set. -/
def process_args_cmdline (progname : String) (args : List String)
    (flag_parse : List String → ParseOutcome) (stat : String → StatResult) : ArgsOutcome :=
  match flag_parse args with
  | .stopped _ code msg usage => .exited code msg usage
  | .parsed sa positional => process_args progname args sa positional stat

/-! ## `process_input` -/

/-- The call `bufFin.ReadString(delim)` on a stream whose remaining bytes are
the argument: `some (chunk, rest)` when the delimiter is found (`chunk` ends
with it), `none` when the stream ends first (`err != nil`; the loops then
break and never look at the bytes returned with the error). -/
def readString (delim : Byte) : List Byte → Option (List Byte × List Byte)
  | [] => none
  | b :: bs =>
    if b = delim then some ([b], bs)
    else
      match readString delim bs with
      | none => none
      | some (chunk, rest) => some (b :: chunk, rest)

/-- The variables of the filter loops: the two counters, the bytes the sink
has accepted from `fout.Write`, and the numbers of `fout.Write` and
`ReadString` calls made so far; `printed_errors` lists the `fout.Write` calls
whose error was printed with `fmt.Println(err)` on `os.Stdout` (source line
207), a further write on the standard output, which is the sink itself when
`print_dest` is empty. -/
structure RunState where
  page_ctr : Int
  line_ctr : Int
  out : List Byte
  writes : Nat
  reads : Nat
  printed_errors : List Nat := []
  deriving DecidableEq, Repr

/-- One pass through a loop body: the loop goes on, or `os.Exit(7)` is called. -/
inductive Step where
  | cont (st : RunState)
  | exit7 (st : RunState)
  deriving DecidableEq, Repr

/-- The call `fout.Write(chunk)` under the guard
`page_ctr >= start_page && page_ctr <= end_page`; `wfail n` tells whether the
`Write` call number `n` (counted from 0) returns an error. -/
def write_selected (sa : sp_args) (wfail : Nat → Bool) (st : RunState)
    (chunk : List Byte) : Step :=
  if st.page_ctr ≥ sa.start_page ∧ st.page_ctr ≤ sa.end_page then
    if wfail st.writes then .exit7 { st with writes := st.writes + 1 }
    else .cont { st with out := st.out ++ chunk, writes := st.writes + 1 }
  else .cont st

/-- The body of the lines loop (source lines 199 to 210) for one line read.
When the `Write` fails this loop prints the error with `fmt.Println(err)` on
`os.Stdout` (line 207) before `os.Exit(7)`: the number of the failed call is
added to `printed_errors` (the text of the error, and whether the standard
output takes it, belong to the environment and are not recorded). The
form-feed loop has no such call. -/
def lines_body (sa : sp_args) (wfail : Nat → Bool) (st : RunState)
    (line : List Byte) : Step :=
  let st1 := { st with line_ctr := st.line_ctr + 1 }
  let st2 := if st1.line_ctr > sa.page_len then
      { st1 with page_ctr := st1.page_ctr + 1, line_ctr := 1 } else st1
  match write_selected sa wfail st2 line with
  | .cont st3 => .cont st3
  | .exit7 st3 => .exit7 { st3 with printed_errors := st3.printed_errors ++ [st2.writes] }

/-- The body of the form-feed loop (source lines 219 to 225) for one page read. -/
def ff_body (sa : sp_args) (wfail : Nat → Bool) (st : RunState)
    (page : List Byte) : Step :=
  match write_selected sa wfail st page with
  | .cont st1 => .cont { st1 with page_ctr := st1.page_ctr + 1 }
  | .exit7 st1 => .exit7 st1

/-- The skeleton shared by the two `for` loops: read up to the delimiter, break
on an error, otherwise run the body. The first argument bounds the number of
iterations; `none` means the bound was reached. -/
def read_loop (delim : Byte) (body : RunState → List Byte → Step) :
    Nat → List Byte → RunState → Option Step
  | 0, _, _ => none
  | fuel + 1, input, st =>
    match readString delim input with
    | none => some (.cont { st with reads := st.reads + 1 })
    | some (chunk, rest) =>
      match body { st with reads := st.reads + 1 } chunk with
      | .cont st1 => read_loop delim body fuel rest st1
      | .exit7 st1 => some (.exit7 st1)

/-- The variables of a loop after `k` passes through it (or when it has
stopped, if it stops earlier): the same skeleton as `read_loop`, observed
after `k` iterations. -/
def loop_state (delim : Byte) (body : RunState → List Byte → Step) :
    Nat → List Byte → RunState → Step
  | 0, _, st => .cont st
  | k + 1, input, st =>
    match readString delim input with
    | none => .cont { st with reads := st.reads + 1 }
    | some (chunk, rest) =>
      match body { st with reads := st.reads + 1 } chunk with
      | .cont st1 => loop_state delim body k rest st1
      | .exit7 st1 => .exit7 st1

/-- The variables of the loops before the first iteration. -/
def init_state : RunState :=
  { page_ctr := 1, line_ctr := 0, out := [], writes := 0, reads := 0 }

/-- The `Write` call that `write_selected` makes in the state `st`, when the
sink accepts it: the page counter under which the chunk is written, and the
chunk. No entry when the chunk is not selected or the call fails. -/
def write_event (sa : sp_args) (wfail : Nat → Bool) (st : RunState)
    (chunk : List Byte) : List (Int × List Byte) :=
  if st.page_ctr ≥ sa.start_page ∧ st.page_ctr ≤ sa.end_page then
    if wfail st.writes then [] else [(st.page_ctr, chunk)]
  else []

/-- The accepted `Write` call of one pass through the lines loop, if any. -/
def lines_event (sa : sp_args) (wfail : Nat → Bool) (st : RunState)
    (line : List Byte) : List (Int × List Byte) :=
  let st1 := { st with line_ctr := st.line_ctr + 1 }
  let st2 := if st1.line_ctr > sa.page_len then
      { st1 with page_ctr := st1.page_ctr + 1, line_ctr := 1 } else st1
  write_event sa wfail st2 line

/-- The accepted `Write` call of one pass through the form-feed loop, if any. -/
def ff_event (sa : sp_args) (wfail : Nat → Bool) (st : RunState)
    (page : List Byte) : List (Int × List Byte) :=
  write_event sa wfail st page

/-- The loop of `read_loop` once more, keeping the list of the accepted
`Write` calls in the order in which they are made. -/
def log_loop (delim : Byte) (body : RunState → List Byte → Step)
    (event : RunState → List Byte → List (Int × List Byte)) :
    Nat → List Byte → RunState → List (Int × List Byte)
  | 0, _, _ => []
  | fuel + 1, input, st =>
    match readString delim input with
    | none => []
    | some (chunk, rest) =>
      event { st with reads := st.reads + 1 } chunk ++
        match body { st with reads := st.reads + 1 } chunk with
        | .cont st1 => log_loop delim body event fuel rest st1
        | .exit7 _ => []

/-- The accepted `Write` calls of a run of `process_input`, in order: page
counter and chunk of each. -/
def write_log (sa : sp_args) (wfail : Nat → Bool) (input : List Byte) :
    List (Int × List Byte) :=
  if sa.page_type = "l" then
    log_loop 10 (lines_body sa wfail) (lines_event sa wfail) (input.length + 1) input init_state
  else
    log_loop 12 (ff_body sa wfail) (ff_event sa wfail) (input.length + 1) input init_state

/-- What a run of `process_input` leaves behind: the variables of the loop,
the warning on the standard error stream and the exit code. -/
structure Result where
  out : List Byte
  page_ctr : Int
  line_ctr : Int
  writes : Nat
  reads : Nat
  stderr : String
  exit_code : Nat
  printed_errors : List Nat := []
  deriving DecidableEq, Repr

/-- The range warnings written after the loops (source lines 229 to 236). -/
def range_warning (progname : String) (sa : sp_args) (page_ctr : Int) : String :=
  if page_ctr < sa.start_page then
    progname ++ ": start_page (" ++ toString sa.start_page
      ++ ") greater than total pages (" ++ toString page_ctr
      ++ "), no output written\n"
  else if page_ctr < sa.end_page then
    progname ++ ": end_page (" ++ toString sa.end_page
      ++ ") greater than total pages (" ++ toString page_ctr
      ++ "), less output than expected\n"
  else ""

/-- The end of `process_input` once a loop has stopped. -/
def finish (progname : String) (sa : sp_args) : Step → Result
  | .cont st =>
    { out := st.out, page_ctr := st.page_ctr, line_ctr := st.line_ctr,
      writes := st.writes, reads := st.reads,
      stderr := range_warning progname sa st.page_ctr, exit_code := 0,
      printed_errors := st.printed_errors }
  | .exit7 st =>
    { out := st.out, page_ctr := st.page_ctr, line_ctr := st.line_ctr,
      writes := st.writes, reads := st.reads, stderr := "", exit_code := 7,
      printed_errors := st.printed_errors }

/-- The filter of `process_input` on the bytes `input` of the input stream.
One iteration consumes at least one byte, so `input.length + 1` iterations
are enough; the result is `none` only if that bound were reached. -/
def process_input (progname : String) (sa : sp_args) (wfail : Nat → Bool)
    (input : List Byte) : Option Result :=
  let init : RunState := { page_ctr := 1, line_ctr := 0, out := [], writes := 0, reads := 0 }
  if sa.page_type = "l" then
    (read_loop 10 (lines_body sa wfail) (input.length + 1) input init).map (finish progname sa)
  else
    (read_loop 12 (ff_body sa wfail) (input.length + 1) input init).map (finish progname sa)

/-- A sink on which no `Write` fails. -/
def okSink : Nat → Bool := fun _ => false

/-- The bytes a run has written to the sink. -/
def written (r : Option Result) : List Byte :=
  match r with
  | some res => res.out
  | none => []

/-! ## Notions of the specification -/

/-- Spec side: the chunks of a stream, each ending with the delimiter `d`;
the bytes after the last delimiter belong to no chunk. -/
def chunks (d : Byte) : List Byte → List (List Byte)
  | [] => []
  | b :: bs =>
    if b = d then [b] :: chunks d bs
    else
      match chunks d bs with
      | [] => []
      | c :: cs => (b :: c) :: cs

/-- Spec side: the concatenation, in order, of the chunks whose index satisfies
`P`, the first chunk of the list having index `k`. -/
def concatWhere (P : Nat → Prop) [DecidablePred P] : Nat → List (List Byte) → List Byte
  | _, [] => []
  | k, c :: cs => (if P k then c else []) ++ concatWhere P (k + 1) cs

/-- Spec side: the page of line number `k` (counted from 1) when a page has
`L` lines: `floor((k - 1) / L) + 1`. -/
def pageOfLine (L : Int) (k : Nat) : Int := ((k : Int) - 1) / L + 1

/-- Spec side: the number of pages of `n` lines, `ceil(n / L)`. -/
def totalPagesLines (L : Int) (n : Nat) : Int := ((n : Int) + L - 1) / L

/-- Spec side: the input up to and including its last delimiter byte. -/
def uptoLastDelim (d : Byte) (input : List Byte) : List Byte :=
  (input.reverse.dropWhile (fun b => decide (b ≠ d))).reverse

/-- The delimiter byte of a configuration: newline in lines mode, form feed otherwise. -/
def delimOf (sa : sp_args) : Byte := if sa.page_type = "l" then 10 else 12

/-- The loop run on the chunks the reader will deliver, the last read being
the one that meets the end of the stream. -/
def run_chunks (body : RunState → List Byte → Step) : RunState → List (List Byte) → Step
  | st, [] => .cont { st with reads := st.reads + 1 }
  | st, c :: cs =>
    match body { st with reads := st.reads + 1 } c with
    | .cont st1 => run_chunks body st1 cs
    | .exit7 st1 => .exit7 st1

/-- The counters of the lines loop after `k` lines, as the specification
describes them: `(page_ctr, line_ctr)`. -/
def lineCounters (L : Int) (k : Nat) : Int × Int :=
  if k = 0 then (1, 0) else (((k : Int) - 1) / L + 1, ((k : Int) - 1) % L + 1)

/-- Spec side: the warning for a start page beyond the `T` pages of the input. -/
def start_warning (progname : String) (S T : Int) : String :=
  progname ++ ": start_page (" ++ toString S ++ ") greater than total pages ("
    ++ toString T ++ "), no output written\n"

/-- Spec side: the warning for an end page beyond the `T` pages of the input. -/
def end_warning (progname : String) (E T : Int) : String :=
  progname ++ ": end_page (" ++ toString E ++ ") greater than total pages ("
    ++ toString T ++ "), less output than expected\n"

/-- What one pass through a loop body does with the sink, for a body given as
a function of the sink: either it goes on exactly as on a sink that accepts
every write, with no `Write` call or with one call that the sink accepts; or
its `Write` call fails and it stops, the call counted and nothing appended. -/
def body_spec (body : (Nat → Bool) → RunState → List Byte → Step) : Prop :=
  ∀ (wfail : Nat → Bool) (st : RunState) (c : List Byte),
    (∃ st1, body wfail st c = .cont st1 ∧ body okSink st c = .cont st1 ∧
      st1.reads = st.reads ∧
      ((st1.writes = st.writes ∧ st1.out = st.out) ∨
        (st1.writes = st.writes + 1 ∧ wfail st.writes = false ∧ st1.out = st.out ++ c))) ∨
    (∃ st1 st2, body wfail st c = .exit7 st1 ∧ wfail st.writes = true ∧
      st1.writes = st.writes + 1 ∧ st1.out = st.out ∧ st1.reads = st.reads ∧
      body okSink st c = .cont st2 ∧ st2.writes = st.writes + 1)

/-- The accepted `Write` calls of a loop run on the chunks the reader will deliver. -/
def log_chunks (body : RunState → List Byte → Step)
    (event : RunState → List Byte → List (Int × List Byte)) :
    RunState → List (List Byte) → List (Int × List Byte)
  | _, [] => []
  | st, c :: cs =>
    event { st with reads := st.reads + 1 } c ++
      match body { st with reads := st.reads + 1 } c with
      | .cont st1 => log_chunks body event st1 cs
      | .exit7 _ => []

/-- What one pass through a loop body does with a chunk `c`, for pages `s` to
`e`: the chunk is handled under a page counter `q` not below the one before
the pass; it is left out when `q` is outside the pages, written under `q` when
`q` is inside and the sink accepts it, and the loop stops when the write fails;
the page counter after the pass is not below `q`. -/
def log_spec (s e : Int) (body : RunState → List Byte → Step)
    (event : RunState → List Byte → List (Int × List Byte)) : Prop :=
  ∀ (st : RunState) (c : List Byte), ∃ q, st.page_ctr ≤ q ∧
    ((¬ (s ≤ q ∧ q ≤ e) ∧ event st c = [] ∧
        ∃ st1, body st c = .cont st1 ∧ q ≤ st1.page_ctr ∧ st1.out = st.out) ∨
      ((s ≤ q ∧ q ≤ e) ∧ event st c = [(q, c)] ∧
        ∃ st1, body st c = .cont st1 ∧ q ≤ st1.page_ctr ∧ st1.out = st.out ++ c) ∨
      (event st c = [] ∧ ∃ st1, body st c = .exit7 st1 ∧ st1.out = st.out))

/-! ## Inputs of the scenarios -/

/-- The bytes of an ASCII string. -/
def ascii (s : String) : List Byte := s.data.map Char.toNat

/-- A configuration with the given pages, page length and page type, reading
the standard input and writing the standard output. -/
def cfg (s e l : Int) (t : String) : sp_args :=
  { start_page := s, end_page := e, in_filename := "", page_len := l,
    page_type := t, print_dest := "" }

/-- The `n` lines `"L<a>\n"`, `"L<a+1>\n"`, and so on. -/
def numbered (a n : Nat) : List Byte :=
  (List.range' a n).flatMap (fun i => ascii ("L" ++ toString i ++ "\n"))

/-- What one pass through a loop body does on the standard output besides
`fout.Write`: nothing when the loop goes on; when a `Write` fails, the error of
that call (the last one made) is printed if `pr` holds and nothing is if not. -/
def print_spec (pr : Bool) (body : (Nat → Bool) → RunState → List Byte → Step) : Prop :=
  ∀ (wfail : Nat → Bool) (st : RunState) (c : List Byte) (st1 : RunState),
    (body wfail st c = .cont st1 → st1.printed_errors = st.printed_errors) ∧
    (body wfail st c = .exit7 st1 →
      st1.printed_errors
        = if pr then st.printed_errors ++ [st1.writes - 1] else st.printed_errors)

/-- A sink on which the `Write` call number `m` (from 0) fails, and no other. -/
def failAt (m : Nat) : Nat → Bool := fun n => decide (n = m)

/-- A flag library that returns from `flag.Parse()` with the record `sa` and
the positional arguments `positional`. -/
def parsed_as (sa : sp_args) (positional : List String) : List String → ParseOutcome :=
  fun _ => .parsed sa positional

/-- A flag library that rejects the command line: it writes `msg` and the
usage and calls `os.Exit(2)`, the record being `sa` at that moment. -/
def rejected_as (sa : sp_args) (msg : String) : List String → ParseOutcome :=
  fun _ => .stopped sa 2 msg true

/-- An `os.Stat` under which every path exists. -/
def statFound : String → StatResult := fun _ => .found

/-! ## The reader and the loop -/

theorem readString_none {d : Byte} {input : List Byte}
    (h : readString d input = none) : chunks d input = [] := by
  induction input with
  | nil => rfl
  | cons b bs ih =>
    unfold readString at h
    by_cases hb : b = d
    · simp [hb] at h
    · simp only [hb, if_false] at h
      cases hr : readString d bs with
      | none => simp [chunks, hb, ih hr]
      | some p => simp [hr] at h

theorem readString_some {d : Byte} {input chunk rest : List Byte}
    (h : readString d input = some (chunk, rest)) :
    chunks d input = chunk :: chunks d rest ∧ rest.length < input.length
      ∧ input = chunk ++ rest := by
  induction input generalizing chunk rest with
  | nil => simp [readString] at h
  | cons b bs ih =>
    unfold readString at h
    by_cases hb : b = d
    · simp only [hb, if_true, Option.some.injEq, Prod.mk.injEq] at h
      obtain ⟨h1, h2⟩ := h
      subst h1 h2
      simp [chunks, hb]
    · simp only [hb, if_false] at h
      cases hr : readString d bs with
      | none => simp [hr] at h
      | some p =>
        obtain ⟨c, r⟩ := p
        simp only [hr, Option.some.injEq, Prod.mk.injEq] at h
        obtain ⟨h1, h2⟩ := h
        subst h1 h2
        obtain ⟨i1, i2, i3⟩ := ih hr
        refine ⟨?_, ?_, ?_⟩
        · simp [chunks, hb, i1]
        · simp only [List.length_cons]; omega
        · simp [i3]

/-- Enough iterations: the loop does on a stream what `run_chunks` does on its chunks. -/
theorem read_loop_eq (d : Byte) (body : RunState → List Byte → Step) :
    ∀ (fuel : Nat) (input : List Byte) (st : RunState), input.length < fuel →
      read_loop d body fuel input st = some (run_chunks body st (chunks d input)) := by
  intro fuel
  induction fuel with
  | zero => intro input st h; omega
  | succ n ih =>
    intro input st h
    unfold read_loop
    cases hr : readString d input with
    | none => simp [readString_none hr, run_chunks]
    | some p =>
      obtain ⟨c, r⟩ := p
      obtain ⟨i1, i2, _⟩ := readString_some hr
      simp only [i1, run_chunks]
      cases hb : body { st with reads := st.reads + 1 } c with
      | cont st1 => simpa using ih r st1 (by omega)
      | exit7 st1 => rfl

/-- The filter in terms of the chunks of its input: it always ends. -/
theorem process_input_eq (progname : String) (sa : sp_args) (wfail : Nat → Bool)
    (input : List Byte) :
    process_input progname sa wfail input =
      some (finish progname sa
        (run_chunks (if sa.page_type = "l" then lines_body sa wfail else ff_body sa wfail)
          { page_ctr := 1, line_ctr := 0, out := [], writes := 0, reads := 0 }
          (chunks (delimOf sa) input))) := by
  unfold process_input delimOf
  by_cases h : sa.page_type = "l"
  · simp [h, read_loop_eq]
  · simp [h, read_loop_eq]

theorem ediv_emod_succ (m L : Int) (hL : 1 ≤ L) :
    (m % L + 1 + 1 > L → (m + 1) / L = m / L + 1 ∧ (m + 1) % L = 0) ∧
    (¬ m % L + 1 + 1 > L → (m + 1) / L = m / L ∧ (m + 1) % L = m % L + 1) := by
  have h0 : 0 < L := by omega
  have h1 := Int.emod_add_ediv m L
  have h2 := Int.emod_nonneg m (show L ≠ 0 by omega)
  have h3 := Int.emod_lt_of_pos m h0
  constructor
  · intro h
    apply (Int.ediv_emod_unique h0).2
    refine ⟨by linarith, le_refl _, h0⟩
  · intro h
    apply (Int.ediv_emod_unique h0).2
    refine ⟨by linarith, by omega, by omega⟩

theorem lineCounters_succ (L : Int) (hL : 1 ≤ L) (k : Nat) :
    lineCounters L (k + 1) =
      if (lineCounters L k).2 + 1 > L then ((lineCounters L k).1 + 1, 1)
      else ((lineCounters L k).1, (lineCounters L k).2 + 1) := by
  cases k with
  | zero =>
    have h : ¬ L < 1 := by omega
    simp [lineCounters, h]
  | succ m =>
    obtain ⟨ha, hb⟩ := ediv_emod_succ (m : Int) L hL
    simp only [lineCounters, Nat.succ_ne_zero, if_false, Nat.cast_add, Nat.cast_one,
      add_sub_cancel_right, Nat.add_eq_zero, one_ne_zero, and_false]
    by_cases h : (m : Int) % L + 1 + 1 > L
    · obtain ⟨e1, e2⟩ := ha h
      simp [h, e1, e2]
    · obtain ⟨e1, e2⟩ := hb h
      simp [h, e1, e2]

theorem lineCounters_fst (L : Int) (k : Nat) :
    (lineCounters L (k + 1)).1 = pageOfLine L (k + 1) := by
  simp [lineCounters, pageOfLine]

/-- One line read in lines mode on a sink that accepts every write. -/
theorem lines_body_eq (sa : sp_args) (st : RunState) (c : List Byte) :
    lines_body sa okSink st c = .cont
      { st with
        page_ctr := if st.line_ctr + 1 > sa.page_len then st.page_ctr + 1 else st.page_ctr
        line_ctr := if st.line_ctr + 1 > sa.page_len then 1 else st.line_ctr + 1
        out := st.out ++
          (if sa.start_page ≤ (if st.line_ctr + 1 > sa.page_len then st.page_ctr + 1
              else st.page_ctr)
            ∧ (if st.line_ctr + 1 > sa.page_len then st.page_ctr + 1 else st.page_ctr)
              ≤ sa.end_page then c else [])
        writes := st.writes +
          (if sa.start_page ≤ (if st.line_ctr + 1 > sa.page_len then st.page_ctr + 1
              else st.page_ctr)
            ∧ (if st.line_ctr + 1 > sa.page_len then st.page_ctr + 1 else st.page_ctr)
              ≤ sa.end_page then 1 else 0) } := by
  by_cases hgt : st.line_ctr + 1 > sa.page_len
  · by_cases hsel : sa.start_page ≤ st.page_ctr + 1 ∧ st.page_ctr + 1 ≤ sa.end_page
    · simp [lines_body, write_selected, okSink, hgt, hsel]
    · simp [lines_body, write_selected, okSink, hgt, hsel]
  · by_cases hsel : sa.start_page ≤ st.page_ctr ∧ st.page_ctr ≤ sa.end_page
    · simp [lines_body, write_selected, okSink, hgt, hsel]
    · simp [lines_body, write_selected, okSink, hgt, hsel]

/-- One line read in lines mode: the counters follow `lineCounters`. -/
theorem lines_body_ok (sa : sp_args) (hL : 1 ≤ sa.page_len) (k : Nat) (st : RunState)
    (c : List Byte) (h : (st.page_ctr, st.line_ctr) = lineCounters sa.page_len k) :
    ∃ st1, lines_body sa okSink st c = .cont st1 ∧
      (st1.page_ctr, st1.line_ctr) = lineCounters sa.page_len (k + 1) ∧
      st1.out = st.out ++ (if sa.start_page ≤ pageOfLine sa.page_len (k + 1)
        ∧ pageOfLine sa.page_len (k + 1) ≤ sa.end_page then c else []) ∧
      st1.reads = st.reads := by
  have hs := lineCounters_succ sa.page_len hL k
  have hp := lineCounters_fst sa.page_len k
  rw [← h] at hs
  simp only at hs
  refine ⟨_, lines_body_eq sa st c, ?_, ?_, rfl⟩
  · rw [hs]
    by_cases hgt : st.line_ctr + 1 > sa.page_len
    · simp [hgt]
    · simp [hgt]
  · rw [← hp, hs]
    by_cases hgt : st.line_ctr + 1 > sa.page_len
    · simp [hgt]
    · simp [hgt]

/-- The lines loop on a sink that accepts every write, started after `k` lines. -/
theorem lines_run (sa : sp_args) (hL : 1 ≤ sa.page_len) :
    ∀ (cs : List (List Byte)) (k : Nat) (st : RunState),
      (st.page_ctr, st.line_ctr) = lineCounters sa.page_len k →
      ∃ st1, run_chunks (lines_body sa okSink) st cs = .cont st1 ∧
        (st1.page_ctr, st1.line_ctr) = lineCounters sa.page_len (k + cs.length) ∧
        st1.out = st.out ++ concatWhere (fun i => sa.start_page ≤ pageOfLine sa.page_len i
          ∧ pageOfLine sa.page_len i ≤ sa.end_page) (k + 1) cs ∧
        st1.reads = st.reads + cs.length + 1 := by
  intro cs
  induction cs with
  | nil =>
    intro k st h
    exact ⟨_, rfl, by simpa using h, by simp [concatWhere], rfl⟩
  | cons c cs ih =>
    intro k st h
    obtain ⟨st1, e1, e2, e3, e4⟩ :=
      lines_body_ok sa hL k { st with reads := st.reads + 1 } c h
    obtain ⟨st2, f1, f2, f3, f4⟩ := ih (k + 1) st1 e2
    refine ⟨st2, ?_, ?_, ?_, ?_⟩
    · simp only [run_chunks, e1, f1]
    · rw [f2]; congr 1; simp only [List.length_cons]; omega
    · rw [f3, e3]; simp [concatWhere]
    · rw [f4, e4]; simp only [List.length_cons]; omega

/-- One page read in form-feed mode on a sink that accepts every write. -/
theorem ff_body_ok (sa : sp_args) (st : RunState) (c : List Byte) :
    ff_body sa okSink st c = .cont
      { st with
        page_ctr := st.page_ctr + 1
        out := st.out ++ (if sa.start_page ≤ st.page_ctr ∧ st.page_ctr ≤ sa.end_page
          then c else [])
        writes := st.writes + (if sa.start_page ≤ st.page_ctr ∧ st.page_ctr ≤ sa.end_page
          then 1 else 0) } := by
  by_cases hsel : sa.start_page ≤ st.page_ctr ∧ st.page_ctr ≤ sa.end_page
  · simp [ff_body, write_selected, okSink, hsel]
  · simp [ff_body, write_selected, okSink, hsel]

/-- The form-feed loop on a sink that accepts every write, started after `k` pages. -/
theorem ff_run (sa : sp_args) :
    ∀ (cs : List (List Byte)) (k : Nat) (st : RunState),
      st.page_ctr = (k : Int) + 1 →
      ∃ st1, run_chunks (ff_body sa okSink) st cs = .cont st1 ∧
        st1.page_ctr = ((k + cs.length : Nat) : Int) + 1 ∧
        st1.line_ctr = st.line_ctr ∧
        st1.out = st.out ++ concatWhere (fun i => sa.start_page ≤ (i : Int)
          ∧ (i : Int) ≤ sa.end_page) (k + 1) cs ∧
        st1.reads = st.reads + cs.length + 1 := by
  intro cs
  induction cs with
  | nil =>
    intro k st h
    exact ⟨_, rfl, by simpa using h, rfl, by simp [concatWhere], rfl⟩
  | cons c cs ih =>
    intro k st h
    obtain ⟨st2, f1, f2, f3, f4, f5⟩ := ih (k + 1)
      { st with
        reads := st.reads + 1
        page_ctr := st.page_ctr + 1
        out := st.out ++ (if sa.start_page ≤ st.page_ctr ∧ st.page_ctr ≤ sa.end_page
          then c else [])
        writes := st.writes + (if sa.start_page ≤ st.page_ctr ∧ st.page_ctr ≤ sa.end_page
          then 1 else 0) } (by simp [h])
    refine ⟨st2, ?_, ?_, ?_, ?_, ?_⟩
    · simp only [run_chunks, ff_body_ok, f1]
    · rw [f2]; simp only [List.length_cons]; push_cast; omega
    · rw [f3]
    · rw [f4]; simp [concatWhere, h]
    · rw [f5]; simp only [List.length_cons]; omega

/-- Lines mode, every write accepted: what the run leaves behind. -/
theorem process_input_lines (progname : String) (sa : sp_args) (input : List Byte)
    (ht : sa.page_type = "l") (hL : 1 ≤ sa.page_len) :
    ∃ r, process_input progname sa okSink input = some r ∧
      r.out = concatWhere (fun k => sa.start_page ≤ pageOfLine sa.page_len k
        ∧ pageOfLine sa.page_len k ≤ sa.end_page) 1 (chunks 10 input) ∧
      (r.page_ctr, r.line_ctr) = lineCounters sa.page_len (chunks 10 input).length ∧
      r.reads = (chunks 10 input).length + 1 ∧
      r.exit_code = 0 ∧ r.stderr = range_warning progname sa r.page_ctr := by
  obtain ⟨st1, e1, e2, e3, e4⟩ := lines_run sa hL (chunks 10 input) 0
    { page_ctr := 1, line_ctr := 0, out := [], writes := 0, reads := 0 } rfl
  refine ⟨finish progname sa (.cont st1), ?_, ?_, ?_, ?_, rfl, rfl⟩
  · rw [process_input_eq]; simp only [ht, if_true, delimOf, e1]
  · simpa [finish] using e3
  · simpa [finish] using e2
  · simpa [finish] using e4

/-- Form-feed mode, every write accepted: what the run leaves behind. -/
theorem process_input_ff (progname : String) (sa : sp_args) (input : List Byte)
    (ht : sa.page_type ≠ "l") :
    ∃ r, process_input progname sa okSink input = some r ∧
      r.out = concatWhere (fun i => sa.start_page ≤ (i : Int) ∧ (i : Int) ≤ sa.end_page) 1
        (chunks 12 input) ∧
      r.page_ctr = ((chunks 12 input).length : Int) + 1 ∧ r.line_ctr = 0 ∧
      r.reads = (chunks 12 input).length + 1 ∧
      r.exit_code = 0 ∧ r.stderr = range_warning progname sa r.page_ctr := by
  obtain ⟨st1, e1, e2, e3, e4, e5⟩ := ff_run sa (chunks 12 input) 0
    { page_ctr := 1, line_ctr := 0, out := [], writes := 0, reads := 0 } rfl
  refine ⟨finish progname sa (.cont st1), ?_, ?_, ?_, ?_, ?_, rfl, rfl⟩
  · rw [process_input_eq]; simp only [ht, if_false, delimOf, e1]
  · simpa [finish] using e4
  · simpa [finish] using e2
  · simpa [finish] using e3
  · simpa [finish] using e5

/-- Two selections that agree on the indices of the chunks give the same bytes. -/
theorem concatWhere_congr (P Q : Nat → Prop) [DecidablePred P] [DecidablePred Q] :
    ∀ (cs : List (List Byte)) (k : Nat),
      (∀ i, k ≤ i → i < k + cs.length → (P i ↔ Q i)) →
      concatWhere P k cs = concatWhere Q k cs := by
  intro cs
  induction cs with
  | nil => intro k _; rfl
  | cons c cs ih =>
    intro k h
    have h0 : P k ↔ Q k := h k (le_refl _) (by simp)
    have h1 := ih (k + 1) (fun i hi hj => h i (by omega) (by simp only [List.length_cons]; omega))
    simp only [concatWhere, h1]
    by_cases hp : P k
    · simp [hp, h0.1 hp]
    · have hq : ¬ Q k := fun hq => hp (h0.2 hq)
      simp [hp, hq]

/-- C1: in lines mode (`page_type = "l"`), for every input, every page length
`L ≥ 1` and every `1 ≤ start_page ≤ end_page`, `process_input` ends and the
bytes written to the sink are the
concatenation, in input order, of the newline-terminated lines whose index `k`
(from 1) satisfies `start_page ≤ floor((k - 1) / L) + 1 ≤ end_page`; and on the
30 lines `L1` .. `L30` with `start_page = end_page = 2`, `L = 10` the output is
lines 11 .. 20. -/
theorem C1_lines_mode_output :
    (∀ (progname : String) (sa : sp_args) (input : List Byte),
      sa.page_type = "l" → 1 ≤ sa.page_len → 1 ≤ sa.start_page →
      sa.start_page ≤ sa.end_page →
      ∃ r, process_input progname sa okSink input = some r ∧
        r.out = concatWhere (fun k => sa.start_page ≤ pageOfLine sa.page_len k
          ∧ pageOfLine sa.page_len k ≤ sa.end_page) 1 (chunks 10 input)) ∧
    (chunks 10 (numbered 1 30)).length = 30 ∧
    ∃ r, process_input "selpg" (cfg 2 2 10 "l") okSink (numbered 1 30) = some r ∧
      r.out = numbered 11 10 := by
  refine ⟨?_, by decide, ?_⟩
  · intro progname sa input ht hL _ _
    obtain ⟨r, h1, h2, _⟩ := process_input_lines progname sa input ht hL
    exact ⟨r, h1, h2⟩
  · exact ⟨_, rfl, by decide⟩

/-- C1, at an input: three lines and a tail, pages of two lines, page 2 selected. -/
theorem C1_lines_mode_output_witness :
    ∃ r, process_input "selpg" (cfg 2 2 2 "l") okSink (ascii "a\nb\nc\nd") = some r ∧
      r.out = concatWhere (fun k => (cfg 2 2 2 "l").start_page
          ≤ pageOfLine (cfg 2 2 2 "l").page_len k
        ∧ pageOfLine (cfg 2 2 2 "l").page_len k ≤ (cfg 2 2 2 "l").end_page) 1
        (chunks 10 (ascii "a\nb\nc\nd")) :=
  C1_lines_mode_output.1 "selpg" (cfg 2 2 2 "l") (ascii "a\nb\nc\nd") rfl
    (by decide) (by decide) (by decide)

/-- C2: in form-feed mode, for every input with `T` form-feed-terminated chunks
and every `start_page ≤ end_page` from 1 on, `process_input` ends and the bytes
written to the sink are the concatenation, in order, of the chunks `i` with
`start_page ≤ i ≤ min(end_page, T)`, form feed included; and `"A\fB\fC\fD\f"`
with pages 2 to 3 gives `"B\fC\f"`. -/
theorem C2_form_feed_output :
    (∀ (progname : String) (sa : sp_args) (input : List Byte),
      sa.page_type ≠ "l" → 1 ≤ sa.start_page → sa.start_page ≤ sa.end_page →
      ∃ r, process_input progname sa okSink input = some r ∧
        r.out = concatWhere (fun i => sa.start_page ≤ (i : Int)
          ∧ (i : Int) ≤ min sa.end_page ((chunks 12 input).length : Int)) 1
          (chunks 12 input)) ∧
    ∃ r, process_input "selpg" (cfg 2 3 10 "f") okSink (ascii "A\x0cB\x0cC\x0cD\x0c") = some r ∧
      r.out = ascii "B\x0cC\x0c" := by
  refine ⟨?_, ⟨_, rfl, by decide⟩⟩
  intro progname sa input ht _ _
  obtain ⟨r, h1, h2, _⟩ := process_input_ff progname sa input ht
  refine ⟨r, h1, ?_⟩
  rw [h2]
  apply concatWhere_congr
  intro i _ hi
  have : (i : Int) ≤ ((chunks 12 input).length : Int) := by omega
  constructor
  · rintro ⟨a, b⟩; exact ⟨a, le_min b this⟩
  · rintro ⟨a, b⟩; exact ⟨a, le_trans b (min_le_left _ _)⟩

/-- C2, at an input: three pages and a tail, pages 2 to 5 asked for. -/
theorem C2_form_feed_output_witness :
    ∃ r, process_input "selpg" (cfg 2 5 10 "f") okSink (ascii "A\x0cB\x0cC\x0cD") = some r ∧
      r.out = concatWhere (fun i => (cfg 2 5 10 "f").start_page ≤ (i : Int)
        ∧ (i : Int) ≤ min (cfg 2 5 10 "f").end_page
          ((chunks 12 (ascii "A\x0cB\x0cC\x0cD")).length : Int)) 1
        (chunks 12 (ascii "A\x0cB\x0cC\x0cD")) :=
  C2_form_feed_output.1 "selpg" (cfg 2 5 10 "f") (ascii "A\x0cB\x0cC\x0cD")
    (by decide) (by decide) (by decide)

/-- A stream without the delimiter has no chunk. -/
theorem chunks_no_delim (d : Byte) : ∀ (xs : List Byte), d ∉ xs → chunks d xs = [] := by
  intro xs
  induction xs with
  | nil => intro _; rfl
  | cons b bs ih =>
    intro h
    have hb : ¬ b = d := fun e => h (by simp [e])
    have hbs : d ∉ bs := fun e => h (by simp [e])
    simp [chunks, hb, ih hbs]

/-- Bytes without the delimiter appended to a stream add no chunk. -/
theorem chunks_append_no_delim (d : Byte) (tail : List Byte) (ht : d ∉ tail) :
    ∀ (xs : List Byte), chunks d (xs ++ tail) = chunks d xs := by
  intro xs
  induction xs with
  | nil => simpa [chunks] using chunks_no_delim d tail ht
  | cons b bs ih =>
    by_cases hb : b = d
    · simp [chunks, hb, ih]
    · simp [chunks, hb, ih]

/-- A stream that ends with the delimiter is the concatenation of its chunks. -/
theorem chunks_flatten_snoc (d : Byte) :
    ∀ (xs : List Byte), (chunks d (xs ++ [d])).flatten = xs ++ [d] := by
  intro xs
  induction xs with
  | nil => simp [chunks]
  | cons b bs ih =>
    by_cases hb : b = d
    · simp [chunks, hb, ih]
    · cases hc : chunks d (bs ++ [d]) with
      | nil => rw [hc] at ih; simp at ih
      | cons c cs =>
        rw [hc] at ih
        rw [List.cons_append, chunks, if_neg hb, hc]
        simpa using ih

theorem uptoLastDelim_snoc (d : Byte) (xs : List Byte) (b : Byte) :
    uptoLastDelim d (xs ++ [b]) = if b = d then xs ++ [b] else uptoLastDelim d xs := by
  by_cases hb : b = d
  · simp [uptoLastDelim, List.dropWhile, hb]
  · simp [uptoLastDelim, List.dropWhile, hb]

/-- The chunks of a stream, concatenated, are the stream up to its last delimiter. -/
theorem chunks_flatten (d : Byte) (xs : List Byte) :
    (chunks d xs).flatten = uptoLastDelim d xs := by
  induction xs using List.reverseRecOn with
  | nil => rfl
  | append_singleton xs b ih =>
    rw [uptoLastDelim_snoc]
    by_cases hb : b = d
    · simp only [hb, if_true]; exact chunks_flatten_snoc d xs
    · simp only [hb, if_false]
      rw [chunks_append_no_delim d [b] (by simpa using fun e => hb e.symm), ih]

/-- Cutting a stream after its last delimiter keeps its chunks. -/
theorem chunks_uptoLastDelim (d : Byte) (xs : List Byte) :
    chunks d (uptoLastDelim d xs) = chunks d xs := by
  induction xs using List.reverseRecOn with
  | nil => rfl
  | append_singleton xs b ih =>
    rw [uptoLastDelim_snoc]
    by_cases hb : b = d
    · simp only [hb, if_true]
    · simp only [hb, if_false]
      rw [chunks_append_no_delim d [b] (by simpa using fun e => hb e.symm), ih]

/-- The stream up to its last delimiter is a prefix of the stream, and what
follows it holds no delimiter. -/
theorem uptoLastDelim_split (d : Byte) (xs : List Byte) :
    ∃ tail, d ∉ tail ∧ xs = uptoLastDelim d xs ++ tail := by
  induction xs using List.reverseRecOn with
  | nil => exact ⟨[], by simp, rfl⟩
  | append_singleton xs b ih =>
    rw [uptoLastDelim_snoc]
    by_cases hb : b = d
    · exact ⟨[], by simp, by simp [hb]⟩
    · obtain ⟨tail, h1, h2⟩ := ih
      refine ⟨tail ++ [b], ?_, ?_⟩
      · simp only [List.mem_append, List.mem_singleton, not_or]
        exact ⟨h1, fun e => hb e.symm⟩
      · simp only [hb, if_false, ← List.append_assoc, ← h2]

/-- Every chunk is a run of bytes without the delimiter, followed by the delimiter. -/
theorem chunks_shape (d : Byte) :
    ∀ (xs : List Byte) (c : List Byte), c ∈ chunks d xs →
      ∃ body, c = body ++ [d] ∧ d ∉ body := by
  intro xs
  induction xs with
  | nil => intro c h; simp [chunks] at h
  | cons b bs ih =>
    intro c h
    by_cases hb : b = d
    · simp only [chunks, hb, if_true, List.mem_cons] at h
      rcases h with h | h
      · exact ⟨[], by simp [h], by simp⟩
      · exact ih c h
    · cases hc : chunks d bs with
      | nil => simp [chunks, hb, hc] at h
      | cons c0 cs =>
        simp only [chunks, hb, if_false, hc, List.mem_cons] at h
        rcases h with h | h
        · obtain ⟨body, e1, e2⟩ := ih c0 (by simp [hc])
          refine ⟨b :: body, by simp [h, e1], ?_⟩
          simp only [List.mem_cons, not_or]
          exact ⟨fun e => hb e.symm, e2⟩
        · exact ih c (by simp [hc, h])

/-- Selecting every index gives all the chunks. -/
theorem concatWhere_all (P : Nat → Prop) [DecidablePred P] :
    ∀ (cs : List (List Byte)) (k : Nat),
      (∀ i, k ≤ i → i < k + cs.length → P i) → concatWhere P k cs = cs.flatten := by
  intro cs
  induction cs with
  | nil => intro k _; rfl
  | cons c cs ih =>
    intro k h
    have h0 : P k := h k (le_refl _) (by simp)
    have h1 := ih (k + 1) (fun i hi hj => h i (by omega) (by simp only [List.length_cons]; omega))
    simp [concatWhere, h0, h1]

/-- Selecting no index gives no byte. -/
theorem concatWhere_none (P : Nat → Prop) [DecidablePred P] :
    ∀ (cs : List (List Byte)) (k : Nat),
      (∀ i, k ≤ i → i < k + cs.length → ¬ P i) → concatWhere P k cs = [] := by
  intro cs
  induction cs with
  | nil => intro k _; rfl
  | cons c cs ih =>
    intro k h
    have h0 : ¬ P k := h k (le_refl _) (by simp)
    have h1 := ih (k + 1) (fun i hi hj => h i (by omega) (by simp only [List.length_cons]; omega))
    simp [concatWhere, h0, h1]

/-- The number of pages of `n` lines is the least `T` with `n ≤ T * L`. -/
theorem totalPagesLines_spec (L : Int) (hL : 1 ≤ L) (n : Nat) :
    (n : Int) ≤ totalPagesLines L n * L ∧ (totalPagesLines L n - 1) * L < (n : Int) := by
  have h0 : 0 < L := by omega
  have h1 := Int.emod_add_ediv ((n : Int) + L - 1) L
  have h2 := Int.emod_nonneg ((n : Int) + L - 1) (show L ≠ 0 by omega)
  have h3 := Int.emod_lt_of_pos ((n : Int) + L - 1) h0
  unfold totalPagesLines
  constructor
  · nlinarith
  · nlinarith

theorem totalPagesLines_eq (L : Int) (hL : 1 ≤ L) (n : Nat) :
    totalPagesLines L n = ((n : Int) - 1) / L + 1 := by
  unfold totalPagesLines
  have h : (n : Int) + L - 1 = ((n : Int) - 1) + L * 1 := by ring
  rw [h, Int.add_mul_ediv_left _ _ (show L ≠ 0 by omega)]

/-- Pages of lines do not decrease with the line number. -/
theorem pageOfLine_mono (L : Int) (hL : 1 ≤ L) {i j : Nat} (h : i ≤ j) :
    pageOfLine L i ≤ pageOfLine L j := by
  unfold pageOfLine
  have : ((i : Int) - 1) / L ≤ ((j : Int) - 1) / L :=
    Int.ediv_le_ediv (by omega) (by omega)
  omega

theorem pageOfLine_pos (L : Int) (hL : 1 ≤ L) {i : Nat} (h : 1 ≤ i) :
    1 ≤ pageOfLine L i := by
  unfold pageOfLine
  have : 0 ≤ ((i : Int) - 1) / L := Int.ediv_nonneg (by omega) (by omega)
  omega

/-- C3: round trip. In both modes, when pages 1 to `K` are asked for and `K ≥ 1`
is at least the number `T` of pages of the input (lines mode, `page_len ≥ 1`:
`T = ceil(n / page_len)` for `n` newline-terminated lines; form-feed mode: `T`
is the number of form-feed-terminated chunks), `process_input` ends and writes
exactly the input up to and including its last delimiter byte. -/
theorem C3_round_trip :
    (∀ (progname : String) (sa : sp_args) (input : List Byte) (K : Int),
      sa.page_type = "l" → 1 ≤ sa.page_len → sa.start_page = 1 → sa.end_page = K →
      1 ≤ K → totalPagesLines sa.page_len (chunks 10 input).length ≤ K →
      ∃ r, process_input progname sa okSink input = some r ∧
        r.out = uptoLastDelim 10 input) ∧
    (∀ (progname : String) (sa : sp_args) (input : List Byte) (K : Int),
      sa.page_type ≠ "l" → sa.start_page = 1 → sa.end_page = K →
      1 ≤ K → ((chunks 12 input).length : Int) ≤ K →
      ∃ r, process_input progname sa okSink input = some r ∧
        r.out = uptoLastDelim 12 input) := by
  constructor
  · intro progname sa input K ht hL hs he _ hT
    obtain ⟨r, h1, h2, _⟩ := process_input_lines progname sa input ht hL
    refine ⟨r, h1, ?_⟩
    rw [h2, ← chunks_flatten]
    apply concatWhere_all
    intro i hi hj
    have hn : i ≤ (chunks 10 input).length := by omega
    have h3 := pageOfLine_mono sa.page_len hL hn
    have h4 := pageOfLine_pos sa.page_len hL hi
    have h5 : pageOfLine sa.page_len (chunks 10 input).length
        = totalPagesLines sa.page_len (chunks 10 input).length := by
      rw [totalPagesLines_eq _ hL]; rfl
    constructor
    · rw [hs]; exact h4
    · rw [he]; omega
  · intro progname sa input K ht hs he _ hT
    obtain ⟨r, h1, h2, _⟩ := process_input_ff progname sa input ht
    refine ⟨r, h1, ?_⟩
    rw [h2, ← chunks_flatten]
    apply concatWhere_all
    intro i hi hj
    constructor
    · rw [hs]; omega
    · rw [he]; omega

/-- C3, at inputs: five lines and a tail with pages of two lines, and three
form-feed pages and a tail, pages 1 to 4 asked for. -/
theorem C3_round_trip_witness :
    (∃ r, process_input "selpg" (cfg 1 4 2 "l") okSink (ascii "a\nb\nc\nd\ne\nxyz") = some r ∧
      r.out = uptoLastDelim 10 (ascii "a\nb\nc\nd\ne\nxyz")) ∧
    (∃ r, process_input "selpg" (cfg 1 4 2 "f") okSink (ascii "A\x0cB\x0cC\x0cxyz") = some r ∧
      r.out = uptoLastDelim 12 (ascii "A\x0cB\x0cC\x0cxyz")) :=
  ⟨C3_round_trip.1 "selpg" (cfg 1 4 2 "l") (ascii "a\nb\nc\nd\ne\nxyz") 4
      rfl (by decide) rfl rfl (by decide) (by decide),
    C3_round_trip.2 "selpg" (cfg 1 4 2 "f") (ascii "A\x0cB\x0cC\x0cxyz") 4
      (by decide) rfl rfl (by decide) (by decide)⟩

/-- With page numbers that do not decrease along the chunks, the chunks of
pages 1 to `T` followed by those of page `T + 1` are the chunks of pages 1 to `T + 1`. -/
theorem concatWhere_split (f : Nat → Int) (hf : ∀ i j, i ≤ j → f i ≤ f j) (T : Int)
    (hT : 0 ≤ T) :
    ∀ (cs : List (List Byte)) (k : Nat),
      concatWhere (fun j => 1 ≤ f j ∧ f j ≤ T) k cs
        ++ concatWhere (fun j => T + 1 ≤ f j ∧ f j ≤ T + 1) k cs
      = concatWhere (fun j => 1 ≤ f j ∧ f j ≤ T + 1) k cs := by
  intro cs
  induction cs with
  | nil => intro k; rfl
  | cons c cs ih =>
    intro k
    have ih1 := ih (k + 1)
    simp only [concatWhere]
    by_cases h1 : 1 ≤ f k ∧ f k ≤ T
    · have h2 : ¬ (T + 1 ≤ f k ∧ f k ≤ T + 1) := by omega
      have h3 : 1 ≤ f k ∧ f k ≤ T + 1 := by omega
      rw [if_pos h1, if_neg h2, if_pos h3, ← ih1]
      simp
    · by_cases h2 : T + 1 ≤ f k ∧ f k ≤ T + 1
      · have h3 : 1 ≤ f k ∧ f k ≤ T + 1 := by omega
        have h4 : concatWhere (fun j => 1 ≤ f j ∧ f j ≤ T) (k + 1) cs = [] := by
          apply concatWhere_none
          intro i hi _
          have := hf k i (by omega)
          omega
        rw [if_neg h1, if_pos h2, if_pos h3, ← ih1, h4]
        simp
      · have h3 : ¬ (1 ≤ f k ∧ f k ≤ T + 1) := by omega
        rw [if_neg h1, if_neg h2, if_neg h3, ← ih1]
        simp

/-- With page numbers that do not decrease along the chunks, the selections of
the single pages 1, 2, .., `T`, one after the other, are the selection of pages 1 to `T`. -/
theorem concatWhere_pages (f : Nat → Int) (hf : ∀ i j, i ≤ j → f i ≤ f j)
    (cs : List (List Byte)) (k : Nat) :
    ∀ (T : Nat),
      (List.range' 1 T).flatMap
        (fun i => concatWhere (fun j => (i : Int) ≤ f j ∧ f j ≤ (i : Int)) k cs)
      = concatWhere (fun j => 1 ≤ f j ∧ f j ≤ (T : Int)) k cs := by
  intro T
  induction T with
  | zero =>
    symm
    simp only [List.range'_zero, List.flatMap_nil]
    apply concatWhere_none
    intro i _ _
    simp only [Nat.cast_zero]
    omega
  | succ T ih =>
    rw [List.range'_concat, List.flatMap_append, ih]
    have := concatWhere_split f hf (T : Int) (by omega) cs k
    simp only [List.flatMap_cons, List.flatMap_nil, List.append_nil, mul_one, Nat.cast_add,
      Nat.cast_one]
    rw [← this]
    have e : (1 : Int) + ((1 * T : Nat) : Int) = (T : Int) + 1 := by push_cast; ring
    rw [e]

/-- The bytes written in lines mode on a sink that accepts every write. -/
theorem written_lines (progname : String) (sa : sp_args) (input : List Byte)
    (ht : sa.page_type = "l") (hL : 1 ≤ sa.page_len) :
    written (process_input progname sa okSink input)
      = concatWhere (fun k => sa.start_page ≤ pageOfLine sa.page_len k
        ∧ pageOfLine sa.page_len k ≤ sa.end_page) 1 (chunks 10 input) := by
  obtain ⟨r, h1, h2, _⟩ := process_input_lines progname sa input ht hL
  rw [h1]; exact h2

/-- The bytes written in form-feed mode on a sink that accepts every write. -/
theorem written_ff (progname : String) (sa : sp_args) (input : List Byte)
    (ht : sa.page_type ≠ "l") :
    written (process_input progname sa okSink input)
      = concatWhere (fun i => sa.start_page ≤ (i : Int) ∧ (i : Int) ≤ sa.end_page) 1
        (chunks 12 input) := by
  obtain ⟨r, h1, h2, _⟩ := process_input_ff progname sa input ht
  rw [h1]; exact h2

/-- The filter always ends, whatever the configuration and the sink. -/
theorem process_input_isSome (progname : String) (sa : sp_args) (wfail : Nat → Bool)
    (input : List Byte) : (process_input progname sa wfail input).isSome = true := by
  rw [process_input_eq]; rfl

/-- C4: page additivity. In both modes, for an input with `T ≥ 1` pages and a
page length of at least 1, the outputs of the runs with `start_page = end_page
= i` for `i = 1, 2, .., T`, one after the other, are the output of the run with
`start_page = 1` and `end_page = T`; each of these runs ends. -/
theorem C4_page_additivity :
    (∀ (progname : String) (sa : sp_args) (input : List Byte) (T : Nat),
      sa.page_type = "l" → 1 ≤ sa.page_len →
      (T : Int) = totalPagesLines sa.page_len (chunks 10 input).length → 1 ≤ T →
      (∀ s e : Int, (process_input progname { sa with start_page := s, end_page := e }
        okSink input).isSome = true) ∧
      (List.range' 1 T).flatMap (fun i => written (process_input progname
          { sa with start_page := (i : Int), end_page := (i : Int) } okSink input))
        = written (process_input progname
          { sa with start_page := 1, end_page := (T : Int) } okSink input)) ∧
    (∀ (progname : String) (sa : sp_args) (input : List Byte) (T : Nat),
      sa.page_type ≠ "l" → 1 ≤ sa.page_len →
      T = (chunks 12 input).length → 1 ≤ T →
      (∀ s e : Int, (process_input progname { sa with start_page := s, end_page := e }
        okSink input).isSome = true) ∧
      (List.range' 1 T).flatMap (fun i => written (process_input progname
          { sa with start_page := (i : Int), end_page := (i : Int) } okSink input))
        = written (process_input progname
          { sa with start_page := 1, end_page := (T : Int) } okSink input)) := by
  constructor
  · intro progname sa input T ht hL _ _
    refine ⟨fun s e => process_input_isSome _ _ _ _, ?_⟩
    have h := concatWhere_pages (pageOfLine sa.page_len)
      (fun i j hij => pageOfLine_mono sa.page_len hL hij) (chunks 10 input) 1 T
    have hw : ∀ s e : Int, written (process_input progname
        { sa with start_page := s, end_page := e } okSink input)
        = concatWhere (fun k => s ≤ pageOfLine sa.page_len k
          ∧ pageOfLine sa.page_len k ≤ e) 1 (chunks 10 input) :=
      fun s e => written_lines progname { sa with start_page := s, end_page := e } input ht hL
    simp only [hw]
    exact h
  · intro progname sa input T ht _ _ _
    refine ⟨fun s e => process_input_isSome _ _ _ _, ?_⟩
    have h := concatWhere_pages (fun i => (i : Int))
      (fun i j hij => by simpa using hij) (chunks 12 input) 1 T
    have hw : ∀ s e : Int, written (process_input progname
        { sa with start_page := s, end_page := e } okSink input)
        = concatWhere (fun i => s ≤ (i : Int) ∧ (i : Int) ≤ e) 1 (chunks 12 input) :=
      fun s e => written_ff progname { sa with start_page := s, end_page := e } input ht
    simp only [hw]
    exact h

/-- C4, at inputs: five lines with pages of two lines (three pages), and three
form-feed pages. -/
theorem C4_page_additivity_witness :
    ((∀ s e : Int, (process_input "selpg" { cfg 1 1 2 "l" with start_page := s, end_page := e }
        okSink (ascii "a\nb\nc\nd\ne\n")).isSome = true) ∧
      (List.range' 1 3).flatMap (fun i => written (process_input "selpg"
          { cfg 1 1 2 "l" with start_page := (i : Int), end_page := (i : Int) } okSink
          (ascii "a\nb\nc\nd\ne\n")))
        = written (process_input "selpg"
          { cfg 1 1 2 "l" with start_page := 1, end_page := ((3 : Nat) : Int) } okSink
          (ascii "a\nb\nc\nd\ne\n"))) ∧
    ((∀ s e : Int, (process_input "selpg" { cfg 1 1 2 "f" with start_page := s, end_page := e }
        okSink (ascii "A\x0cB\x0cC\x0c")).isSome = true) ∧
      (List.range' 1 3).flatMap (fun i => written (process_input "selpg"
          { cfg 1 1 2 "f" with start_page := (i : Int), end_page := (i : Int) } okSink
          (ascii "A\x0cB\x0cC\x0c")))
        = written (process_input "selpg"
          { cfg 1 1 2 "f" with start_page := 1, end_page := ((3 : Nat) : Int) } okSink
          (ascii "A\x0cB\x0cC\x0c"))) :=
  ⟨C4_page_additivity.1 "selpg" (cfg 1 1 2 "l") (ascii "a\nb\nc\nd\ne\n") 3
      rfl (by decide) (by decide) (by decide),
    C4_page_additivity.2 "selpg" (cfg 1 1 2 "f") (ascii "A\x0cB\x0cC\x0c") 3
      (by decide) (by decide) (by decide) (by decide)⟩

/-- The filter sees its input only through the chunks of the input. -/
theorem process_input_chunks (progname : String) (sa : sp_args) (wfail : Nat → Bool)
    (x y : List Byte) (h : chunks (delimOf sa) x = chunks (delimOf sa) y) :
    process_input progname sa wfail x = process_input progname sa wfail y := by
  rw [process_input_eq, process_input_eq, h]

/-- C5: in both modes, for every input and every configuration, valid or not,
`process_input` ends, its outcome on an input `x` is its outcome on `x` cut
after the last delimiter byte of `x` (newline in lines mode, form feed in
form-feed mode), and bytes without a delimiter appended to an input change
nothing: a page that has begun but is not ended by a delimiter is not written. -/
theorem C5_trailing_bytes_dropped :
    (∀ (progname : String) (sa : sp_args) (wfail : Nat → Bool) (x : List Byte),
      ∃ r, process_input progname sa wfail x = some r ∧
        process_input progname sa wfail (uptoLastDelim (delimOf sa) x) = some r) ∧
    (∀ (progname : String) (sa : sp_args) (wfail : Nat → Bool) (x tail : List Byte),
      delimOf sa ∉ tail →
      process_input progname sa wfail (x ++ tail) = process_input progname sa wfail x) := by
  constructor
  · intro progname sa wfail x
    refine ⟨_, process_input_eq progname sa wfail x, ?_⟩
    rw [← process_input_eq]
    exact process_input_chunks progname sa wfail _ _ (chunks_uptoLastDelim _ _)
  · intro progname sa wfail x tail ht
    exact process_input_chunks progname sa wfail _ _ (chunks_append_no_delim _ tail ht x)

/-- C5, at inputs: a line and a page followed by bytes without delimiter. -/
theorem C5_trailing_bytes_dropped_witness :
    process_input "selpg" (cfg 1 2 10 "l") okSink (ascii "a\n" ++ ascii "bc")
      = process_input "selpg" (cfg 1 2 10 "l") okSink (ascii "a\n") ∧
    process_input "selpg" (cfg 1 2 10 "f") okSink (ascii "A\x0c" ++ ascii "B\nC")
      = process_input "selpg" (cfg 1 2 10 "f") okSink (ascii "A\x0c") :=
  ⟨C5_trailing_bytes_dropped.2 "selpg" (cfg 1 2 10 "l") okSink (ascii "a\n") (ascii "bc")
      (by decide),
    C5_trailing_bytes_dropped.2 "selpg" (cfg 1 2 10 "f") okSink (ascii "A\x0c") (ascii "B\nC")
      (by decide)⟩

/-- C6: in form-feed mode the page length has no influence: for every input,
sink, `start_page`, `end_page` and two page lengths `p1`, `p2`, the two runs of
`process_input` end and leave the same record: the same bytes on the sink, the
same page counter, the same warning. -/
theorem C6_form_feed_ignores_page_len (progname : String) (sa : sp_args)
    (wfail : Nat → Bool) (input : List Byte) (p1 p2 : Int) (ht : sa.page_type ≠ "l") :
    ∃ r, process_input progname { sa with page_len := p1 } wfail input = some r ∧
      process_input progname { sa with page_len := p2 } wfail input = some r := by
  refine ⟨_, process_input_eq progname _ wfail input, ?_⟩
  rw [process_input_eq]
  have hb : ff_body { sa with page_len := p2 } wfail = ff_body { sa with page_len := p1 } wfail := by
    funext st c; simp [ff_body, write_selected]
  have hf : finish progname { sa with page_len := p2 }
      = finish progname { sa with page_len := p1 } := by
    funext s; cases s <;> simp [finish, range_warning]
  simp only [ht, if_false, delimOf, hb, hf]

/-- C6, at an input: page lengths 1 and 1000000 on four form-feed pages. -/
theorem C6_form_feed_ignores_page_len_witness :
    ∃ r, process_input "selpg" { cfg 2 3 10 "f" with page_len := 1 } okSink
        (ascii "A\x0cB\x0cC\x0cD\x0c") = some r ∧
      process_input "selpg" { cfg 2 3 10 "f" with page_len := 1000000 } okSink
        (ascii "A\x0cB\x0cC\x0cD\x0c") = some r :=
  C6_form_feed_ignores_page_len "selpg" (cfg 2 3 10 "f") okSink
    (ascii "A\x0cB\x0cC\x0cD\x0c") 1 1000000 (by decide)

/-- The numeric checks of `process_args`, in one predicate. -/
theorem process_args_numeric (progname : String) (args : List String) (sa : sp_args)
    (positional : List String) (stat : String → StatResult)
    (h1 : args.get? 1 = some "-s") (h3 : args.get? 3 = some "-e") :
    (¬ (sa.start_page < 1 ∨ sa.start_page > INT_MAX - 1 ∨ sa.end_page < 1
        ∨ sa.end_page > INT_MAX - 1 ∨ sa.end_page < sa.start_page ∨ sa.page_len < 1
        ∨ sa.page_len > INT_MAX - 1) →
      process_args progname args sa positional stat =
        match positional with
        | [name] =>
          if stat name = .notExist then
            .exited 4 (progname ++ ": input file \"" ++ name ++ "\" does not exist\n") false
          else .returned { sa with in_filename := name }
        | _ => .returned sa) ∧
    ((sa.start_page < 1 ∨ sa.start_page > INT_MAX - 1 ∨ sa.end_page < 1
        ∨ sa.end_page > INT_MAX - 1 ∨ sa.end_page < sa.start_page ∨ sa.page_len < 1
        ∨ sa.page_len > INT_MAX - 1) →
      ∃ msg, process_args progname args sa positional stat = .exited 3 msg true) := by
  have hlen : ¬ args.length < 3 := by
    intro hl
    have : args.get? 3 = none := List.get?_eq_none.2 (by omega)
    rw [this] at h3; cases h3
  constructor
  · intro hv
    simp only [not_or, not_lt] at hv
    obtain ⟨a, b, c, d, e, f, g⟩ := hv
    have c1 : ¬ (sa.start_page < 1 ∨ sa.start_page > INT_MAX - 1) := by omega
    have c2 : ¬ (sa.end_page < 1 ∨ sa.end_page > INT_MAX - 1
        ∨ sa.end_page < sa.start_page) := by omega
    have c3 : ¬ (sa.page_len < 1 ∨ sa.page_len > INT_MAX - 1) := by omega
    simp only [process_args, hlen, if_false, h1, h3, ne_eq, not_true_eq_false, c1, c2, c3]
  · intro hv
    by_cases c1 : sa.start_page < 1 ∨ sa.start_page > INT_MAX - 1
    · exact ⟨progname ++ ": invalid start page " ++ badVerbS sa.start_page ++ "\n",
        by simp only [process_args, hlen, if_false, h1, ne_eq, not_true_eq_false, c1, if_true]⟩
    · by_cases c2 : sa.end_page < 1 ∨ sa.end_page > INT_MAX - 1
          ∨ sa.end_page < sa.start_page
      · exact ⟨progname ++ ": invalid end page " ++ badVerbS sa.end_page ++ "\n",
          by simp only [process_args, hlen, if_false, h1, h3, ne_eq, not_true_eq_false,
            c1, c2, if_true]⟩
      · have c3 : sa.page_len < 1 ∨ sa.page_len > INT_MAX - 1 := by omega
        exact ⟨progname ++ ": invalid page length " ++ badVerbS sa.page_len ++ "\n",
          by simp only [process_args, hlen, if_false, h1, h3, ne_eq, not_true_eq_false,
            c1, c2, c3, if_true]⟩

/-- When `process_args` returns, the first and third tokens were `-s` and `-e`
and the numeric checks passed. -/
theorem process_args_returned (progname : String) (args : List String) (sa : sp_args)
    (positional : List String) (stat : String → StatResult) (res : sp_args)
    (h : process_args progname args sa positional stat = .returned res) :
    args.get? 1 = some "-s" ∧ args.get? 3 = some "-e" ∧
    ¬ (sa.start_page < 1 ∨ sa.start_page > INT_MAX - 1 ∨ sa.end_page < 1
        ∨ sa.end_page > INT_MAX - 1 ∨ sa.end_page < sa.start_page ∨ sa.page_len < 1
        ∨ sa.page_len > INT_MAX - 1) ∧
    res.start_page = sa.start_page ∧ res.end_page = sa.end_page ∧
    res.page_len = sa.page_len ∧ res.page_type = sa.page_type ∧
    res.print_dest = sa.print_dest := by
  unfold process_args at h
  split at h
  · cases h
  · split at h
    · cases h
    · rename_i a1 h1
      split at h
      · cases h
      · rename_i ha1
        split at h
        · cases h
        · rename_i c1
          split at h
          · cases h
          · rename_i a3 h3
            split at h
            · cases h
            · rename_i ha3
              split at h
              · cases h
              · rename_i c2
                split at h
                · cases h
                · rename_i c3
                  have e1 : a1 = "-s" := by simpa using ha1
                  have e3 : a3 = "-e" := by simpa using ha3
                  subst e1 e3
                  refine ⟨h1, h3, by omega, ?_⟩
                  split at h
                  · split at h
                    · cases h
                    · cases h; exact ⟨rfl, rfl, rfl, rfl, rfl⟩
                  · cases h; exact ⟨rfl, rfl, rfl, rfl, rfl⟩

/-- C7: whenever `process_args` returns without exiting, for every `os.Args`,
parsed flag values, positional arguments and file system, the record satisfies
`1 ≤ start_page ≤ end_page ≤ INT_MAX - 1` and `1 ≤ page_len ≤ INT_MAX - 1`,
with `INT_MAX = 1 << 32 = 4294967296`. -/
theorem C7_record_invariants (progname : String) (args : List String) (sa : sp_args)
    (positional : List String) (stat : String → StatResult) (res : sp_args)
    (h : process_args progname args sa positional stat = .returned res) :
    1 ≤ res.start_page ∧ res.start_page ≤ res.end_page ∧ res.end_page ≤ INT_MAX - 1 ∧
    1 ≤ res.page_len ∧ res.page_len ≤ INT_MAX - 1 ∧ INT_MAX = 4294967296 := by
  obtain ⟨_, _, hv, e1, e2, e3, _⟩ := process_args_returned progname args sa positional stat res h
  rw [e1, e2, e3]
  refine ⟨by omega, by omega, by omega, by omega, by omega, by decide⟩

/-- C7, at an input: `selpg -s 1 -e 2 in.txt` with an existing file. -/
theorem C7_record_invariants_witness :
    process_args "selpg" ["selpg", "-s", "1", "-e", "2", "in.txt"] (cfg 1 2 10 "l")
        ["in.txt"] statFound = .returned { cfg 1 2 10 "l" with in_filename := "in.txt" } ∧
    (1 ≤ ({ cfg 1 2 10 "l" with in_filename := "in.txt" } : sp_args).start_page ∧
      ({ cfg 1 2 10 "l" with in_filename := "in.txt" } : sp_args).start_page
        ≤ ({ cfg 1 2 10 "l" with in_filename := "in.txt" } : sp_args).end_page ∧
      ({ cfg 1 2 10 "l" with in_filename := "in.txt" } : sp_args).end_page ≤ INT_MAX - 1 ∧
      1 ≤ ({ cfg 1 2 10 "l" with in_filename := "in.txt" } : sp_args).page_len ∧
      ({ cfg 1 2 10 "l" with in_filename := "in.txt" } : sp_args).page_len ≤ INT_MAX - 1 ∧
      INT_MAX = 4294967296) :=
  ⟨by decide,
    C7_record_invariants "selpg" ["selpg", "-s", "1", "-e", "2", "in.txt"] (cfg 1 2 10 "l")
      ["in.txt"] statFound _ (by decide)⟩

/-- The two position checks, once `flag.Parse()` has returned: with at least
three tokens and a first token that is not `-s` the exit code is 2; with at
least four tokens, `-s` first and a third token that is not `-e`, it is 2 when
the start page is in range and 3 when it is not. -/
theorem checks_ordering :
    (∀ (progname : String) (args : List String) (sa : sp_args) (positional : List String)
      (stat : String → StatResult),
      3 ≤ args.length → args.get? 1 ≠ some "-s" →
      process_args progname args sa positional stat
        = .exited 2 (progname ++ ": 1st arg should be -s start_page\n") true) ∧
    (∀ (progname : String) (args : List String) (sa : sp_args) (positional : List String)
      (stat : String → StatResult),
      4 ≤ args.length → args.get? 1 = some "-s" → args.get? 3 ≠ some "-e" →
      (1 ≤ sa.start_page ∧ sa.start_page ≤ INT_MAX - 1 →
        process_args progname args sa positional stat
          = .exited 2 (progname ++ ": 2nd arg should be -e end_page\n") true) ∧
      (¬ (1 ≤ sa.start_page ∧ sa.start_page ≤ INT_MAX - 1) →
        process_args progname args sa positional stat
          = .exited 3 (progname ++ ": invalid start page " ++ badVerbS sa.start_page
            ++ "\n") true)) ∧
    process_args "selpg" ["selpg", "-e5", "-s1"] (cfg 1 5 10 "l") [] statFound
      = .exited 2 "selpg: 1st arg should be -s start_page\n" true := by
  refine ⟨?_, ?_, by decide⟩
  · intro progname args sa positional stat hlen h1
    have hl : ¬ args.length < 3 := by omega
    cases hg : args.get? 1 with
    | none =>
      have := List.get?_eq_none.1 hg
      omega
    | some a1 =>
      have ha : a1 ≠ "-s" := by
        intro e; rw [hg, e] at h1; exact h1 rfl
      simp only [process_args, hl, if_false, hg, ne_eq, ha, not_false_eq_true, if_true]
  · intro progname args sa positional stat hlen h1 h3
    have hl : ¬ args.length < 3 := by omega
    constructor
    · intro hv
      have c1 : ¬ (sa.start_page < 1 ∨ sa.start_page > INT_MAX - 1) := by omega
      cases hg : args.get? 3 with
      | none =>
        have := List.get?_eq_none.1 hg
        omega
      | some a3 =>
        have ha : a3 ≠ "-e" := by
          intro e; rw [hg, e] at h3; exact h3 rfl
        simp only [process_args, hl, if_false, h1, hg, ne_eq, not_true_eq_false, c1, ha,
          not_false_eq_true, if_true]
    · intro hv
      have c1 : sa.start_page < 1 ∨ sa.start_page > INT_MAX - 1 := by omega
      simp only [process_args, hl, if_false, h1, ne_eq, not_true_eq_false, c1, if_true]

/-- The length check, once `flag.Parse()` has returned: exit code 1 exactly
with fewer than three tokens. -/
theorem checks_exit_code_1 :
    (∀ (progname : String) (args : List String) (sa : sp_args) (positional : List String)
      (stat : String → StatResult),
      args.length < 3 →
      process_args progname args sa positional stat
        = .exited 1 (progname ++ ": not enough arguments\n") true) ∧
    (∀ (progname : String) (args : List String) (sa : sp_args) (positional : List String)
      (stat : String → StatResult) (msg : String) (usage : Bool),
      process_args progname args sa positional stat = .exited 1 msg usage →
      args.length < 3) ∧
    process_args "selpg" ["selpg", "-s1"] (cfg 1 0 10 "l") [] statFound
      = .exited 1 "selpg: not enough arguments\n" true := by
  refine ⟨?_, ?_, by decide⟩
  · intro progname args sa positional stat hlen
    simp only [process_args, hlen, if_true]
  · intro progname args sa positional stat msg usage h
    by_contra hlen
    unfold process_args at h
    rw [if_neg hlen] at h
    split at h
    · cases h
    · split at h
      · cases h
      · split at h
        · cases h
        · split at h
          · cases h
          · split at h
            · cases h
            · split at h
              · cases h
              · split at h
                · cases h
                · split at h
                  · split at h
                    · cases h
                    · cases h
                  · cases h

/-- The numeric checks, once `flag.Parse()` has returned and with `-s` and
`-e` as first and third token: exit code 3 exactly on a value out of range. -/
theorem checks_exit_code_3 (progname : String) (args : List String) (sa : sp_args)
    (positional : List String) (stat : String → StatResult)
    (h1 : args.get? 1 = some "-s") (h3 : args.get? 3 = some "-e") :
    ((∃ msg usage, process_args progname args sa positional stat = .exited 3 msg usage) ↔
      (sa.start_page < 1 ∨ sa.start_page > INT_MAX - 1 ∨ sa.end_page < 1
        ∨ sa.end_page > INT_MAX - 1 ∨ sa.end_page < sa.start_page ∨ sa.page_len < 1
        ∨ sa.page_len > INT_MAX - 1)) ∧
    ((sa.start_page < 1 ∨ sa.start_page > INT_MAX - 1 ∨ sa.end_page < 1
        ∨ sa.end_page > INT_MAX - 1 ∨ sa.end_page < sa.start_page ∨ sa.page_len < 1
        ∨ sa.page_len > INT_MAX - 1) →
      ∀ out, process_args progname args sa positional stat = out →
        ∃ msg, out = .exited 3 msg true) ∧
    INT_MAX = 4294967296 := by
  obtain ⟨hok, hbad⟩ := process_args_numeric progname args sa positional stat h1 h3
  refine ⟨⟨?_, ?_⟩, ?_, by decide⟩
  · rintro ⟨msg, usage, h⟩
    by_contra hv
    rw [hok hv] at h
    split at h
    · split at h
      · cases h
      · cases h
    · cases h
  · intro hv
    obtain ⟨msg, h⟩ := hbad hv
    exact ⟨msg, true, h⟩
  · intro hv out ho
    obtain ⟨msg, h⟩ := hbad hv
    exact ⟨msg, by rw [← ho, h]⟩

/-- C11: `selpg -s2 -e2 -l10` (values attached, parsed as `start_page = 2`,
`end_page = 2`, `page_len = 10`) does not pass `process_args`: the token
`-s2` is compared with `-s` as a whole and the run ends with exit code 2 and
the message that the 1st arg should be `-s`; the filter itself, given that
configuration, writes lines 11 .. 20 of the 30-line input. -/
theorem C11_attached_values_rejected :
    process_args "selpg" ["selpg", "-s2", "-e2", "-l10"] (cfg 2 2 10 "l") [] statFound
      = .exited 2 "selpg: 1st arg should be -s start_page\n" true ∧
    written (process_input "selpg" (cfg 2 2 10 "l") okSink (numbered 1 30)) = numbered 11 10 := by
  decide

/-- C15: with `os.Stat` as the predicate on paths, every invocation that passes
the positional and numeric checks and gives one positional argument whose path
does not exist ends with exit code 4 (and the message that the input file does
not exist, without the usage); and when `process_args` returns with that
positional argument given, `in_filename` is the argument and its path was not
reported missing. -/
theorem C15_input_file_check (progname : String) (args : List String) (sa : sp_args)
    (name : String) (stat : String → StatResult) :
    (args.get? 1 = some "-s" → args.get? 3 = some "-e" →
      1 ≤ sa.start_page → sa.start_page ≤ sa.end_page → sa.end_page ≤ INT_MAX - 1 →
      1 ≤ sa.page_len → sa.page_len ≤ INT_MAX - 1 → stat name = .notExist →
      process_args progname args sa [name] stat
        = .exited 4 (progname ++ ": input file \"" ++ name ++ "\" does not exist\n") false) ∧
    (∀ res, process_args progname args sa [name] stat = .returned res →
      res.in_filename = name ∧ stat name ≠ .notExist) := by
  constructor
  · intro h1 h3 a b c d e hs
    have hv : ¬ (sa.start_page < 1 ∨ sa.start_page > INT_MAX - 1 ∨ sa.end_page < 1
        ∨ sa.end_page > INT_MAX - 1 ∨ sa.end_page < sa.start_page ∨ sa.page_len < 1
        ∨ sa.page_len > INT_MAX - 1) := by omega
    rw [(process_args_numeric progname args sa [name] stat h1 h3).1 hv]
    simp only [hs, if_true]
  · intro res h
    obtain ⟨h1, h3, hv, _⟩ := process_args_returned progname args sa [name] stat res h
    rw [(process_args_numeric progname args sa [name] stat h1 h3).1 hv] at h
    by_cases hs : stat name = .notExist
    · simp only [hs, if_true] at h; cases h
    · simp only [hs, if_false, ArgsOutcome.returned.injEq] at h
      exact ⟨by rw [← h], hs⟩

/-- C15, at inputs: `selpg -s 1 -e 2 gone.txt` with a missing file, and
`selpg -s 1 -e 2 in.txt` with an existing one. -/
theorem C15_input_file_check_witness :
    process_args "selpg" ["selpg", "-s", "1", "-e", "2", "gone.txt"] (cfg 1 2 10 "l")
        ["gone.txt"] (fun _ => StatResult.notExist)
      = .exited 4 ("selpg" ++ ": input file \"" ++ "gone.txt" ++ "\" does not exist\n") false ∧
    (({ cfg 1 2 10 "l" with in_filename := "in.txt" } : sp_args).in_filename = "in.txt"
      ∧ statFound "in.txt" ≠ .notExist) :=
  ⟨(C15_input_file_check "selpg" ["selpg", "-s", "1", "-e", "2", "gone.txt"] (cfg 1 2 10 "l")
      "gone.txt" (fun _ => StatResult.notExist)).1 (by decide) (by decide) (by decide)
      (by decide) (by decide) (by decide) (by decide) rfl,
    (C15_input_file_check "selpg" ["selpg", "-s", "1", "-e", "2", "in.txt"] (cfg 1 2 10 "l")
      "in.txt" statFound).2 _ (by decide)⟩

/-- C19: `process_args` is not total in the sense of the claim: on
`selpg -s 1` (three tokens, `start_page = 1`) the length guard and the two
checks of the 1st argument pass and `os.Args[3]` is read in a slice of length
3. The index is out of range exactly when there are three tokens, the second
is `-s` and the start page is in range. -/
theorem C19_index_out_of_range :
    process_args "selpg" ["selpg", "-s", "1"] (cfg 1 0 10 "l") [] statFound
      = .indexOutOfRange 3 3 ∧
    ∀ (progname : String) (args : List String) (sa : sp_args) (positional : List String)
      (stat : String → StatResult),
      (∃ i n, process_args progname args sa positional stat = .indexOutOfRange i n) ↔
        (args.length = 3 ∧ args.get? 1 = some "-s" ∧ 1 ≤ sa.start_page
          ∧ sa.start_page ≤ INT_MAX - 1) := by
  refine ⟨by decide, ?_⟩
  intro progname args sa positional stat
  constructor
  · rintro ⟨i, n, h⟩
    unfold process_args at h
    split at h
    · cases h
    · rename_i hlen
      split at h
      · rename_i hg
        have := List.get?_eq_none.1 hg
        omega
      · rename_i a1 h1
        split at h
        · cases h
        · rename_i ha1
          split at h
          · cases h
          · rename_i c1
            split at h
            · rename_i hg
              have := List.get?_eq_none.1 hg
              have e1 : a1 = "-s" := by simpa using ha1
              subst e1
              exact ⟨by omega, h1, by omega, by omega⟩
            · split at h
              · cases h
              · split at h
                · cases h
                · split at h
                  · cases h
                  · split at h
                    · split at h
                      · cases h
                      · cases h
                    · cases h
  · rintro ⟨hlen, h1, a, b⟩
    have hl : ¬ args.length < 3 := by omega
    have c1 : ¬ (sa.start_page < 1 ∨ sa.start_page > INT_MAX - 1) := by omega
    have hg : args.get? 3 = none := List.get?_eq_none.2 (by omega)
    exact ⟨3, args.length, by
      simp only [process_args, hl, if_false, h1, ne_eq, not_true_eq_false, c1, hg]⟩

theorem range_warning_eq (progname : String) (sa : sp_args) (p : Int) :
    range_warning progname sa p =
      if p < sa.start_page then start_warning progname sa.start_page p
      else if p < sa.end_page then end_warning progname sa.end_page p
      else "" := rfl

theorem start_warning_ne (progname : String) (S T : Int) :
    start_warning progname S T ≠ "" := by
  intro h
  have := congrArg String.length h
  simp only [start_warning, String.length_append] at this
  have h2 : "), no output written\n".length = 21 := by decide
  have h3 : "".length = 0 := by decide
  omega

theorem end_warning_ne (progname : String) (E T : Int) :
    end_warning progname E T ≠ "" := by
  intro h
  have := congrArg String.length h
  simp only [end_warning, String.length_append] at this
  have h2 : "), less output than expected\n".length = 29 := by decide
  have h3 : "".length = 0 := by decide
  omega

/-- A warning is written exactly when the page counter is below one of the two pages. -/
theorem range_warning_ne_iff (progname : String) (sa : sp_args) (p : Int) :
    range_warning progname sa p ≠ "" ↔ (p < sa.start_page ∨ p < sa.end_page) := by
  rw [range_warning_eq]
  by_cases h1 : p < sa.start_page
  · simp [h1, start_warning_ne]
  · by_cases h2 : p < sa.end_page
    · simp [h1, h2, end_warning_ne]
    · simp [h1, h2]

/-- The page counter of the lines loop after `n` lines is `max(1, ceil(n / L))`. -/
theorem lineCounters_page (L : Int) (hL : 1 ≤ L) (n : Nat) :
    (lineCounters L n).1 = max 1 (totalPagesLines L n) := by
  cases n with
  | zero =>
    have h0 : totalPagesLines L 0 = 0 := by
      unfold totalPagesLines
      simp only [Nat.cast_zero, zero_add]
      exact Int.ediv_eq_zero_of_lt (by omega) (by omega)
    simp [lineCounters, h0]
  | succ m =>
    have h1 := totalPagesLines_eq L hL (m + 1)
    have h2 := pageOfLine_pos L hL (show 1 ≤ m + 1 by omega)
    have h3 : (lineCounters L (m + 1)).1 = pageOfLine L (m + 1) := lineCounters_fst L m
    have h4 : totalPagesLines L (m + 1) = pageOfLine L (m + 1) := by rw [h1]; rfl
    rw [h3, h4]
    exact (max_eq_right h2).symm

/-- C18: on a sink that accepts every write, the page counter that
`process_input` compares with `start_page` and `end_page` after the loop, and
prints as "total pages", is `max(1, ceil(n / page_len))` in lines mode
(`page_len ≥ 1`, `n` newline-terminated lines) and `T + 1` in form-feed mode
(`T` form-feed-terminated chunks); the run ends with exit code 0, the start
warning is written when that value is below `start_page`, otherwise the end
warning when it is below `end_page`, otherwise nothing. -/
theorem C18_page_counter_after_loop :
    (∀ (progname : String) (sa : sp_args) (input : List Byte),
      sa.page_type = "l" → 1 ≤ sa.page_len →
      ∃ r, process_input progname sa okSink input = some r ∧
        r.page_ctr = max 1 (totalPagesLines sa.page_len (chunks 10 input).length) ∧
        r.stderr = (if r.page_ctr < sa.start_page then
            start_warning progname sa.start_page r.page_ctr
          else if r.page_ctr < sa.end_page then end_warning progname sa.end_page r.page_ctr
          else "") ∧
        (r.stderr ≠ "" ↔ (r.page_ctr < sa.start_page ∨ r.page_ctr < sa.end_page)) ∧
        r.exit_code = 0) ∧
    (∀ (progname : String) (sa : sp_args) (input : List Byte),
      sa.page_type ≠ "l" →
      ∃ r, process_input progname sa okSink input = some r ∧
        r.page_ctr = ((chunks 12 input).length : Int) + 1 ∧
        r.stderr = (if r.page_ctr < sa.start_page then
            start_warning progname sa.start_page r.page_ctr
          else if r.page_ctr < sa.end_page then end_warning progname sa.end_page r.page_ctr
          else "") ∧
        (r.stderr ≠ "" ↔ (r.page_ctr < sa.start_page ∨ r.page_ctr < sa.end_page)) ∧
        r.exit_code = 0) := by
  constructor
  · intro progname sa input ht hL
    obtain ⟨r, h1, _, h3, _, h5, h6⟩ := process_input_lines progname sa input ht hL
    refine ⟨r, h1, ?_, ?_, ?_, h5⟩
    · rw [← lineCounters_page _ hL, ← h3]
    · rw [h6, range_warning_eq]
    · rw [h6]; exact range_warning_ne_iff progname sa r.page_ctr
  · intro progname sa input ht
    obtain ⟨r, h1, _, h3, _, _, h5, h6⟩ := process_input_ff progname sa input ht
    refine ⟨r, h1, h3, ?_, ?_, h5⟩
    · rw [h6, range_warning_eq]
    · rw [h6]; exact range_warning_ne_iff progname sa r.page_ctr

/-- C18, at inputs: five lines with pages of two lines, and two form-feed pages. -/
theorem C18_page_counter_after_loop_witness :
    (∃ r, process_input "selpg" (cfg 1 5 2 "l") okSink (ascii "a\nb\nc\nd\ne\n") = some r ∧
      r.page_ctr = max 1 (totalPagesLines (cfg 1 5 2 "l").page_len
        (chunks 10 (ascii "a\nb\nc\nd\ne\n")).length)) ∧
    (∃ r, process_input "selpg" (cfg 1 5 2 "f") okSink (ascii "A\x0cB\x0c") = some r ∧
      r.page_ctr = ((chunks 12 (ascii "A\x0cB\x0c")).length : Int) + 1) :=
  ⟨(C18_page_counter_after_loop.1 "selpg" (cfg 1 5 2 "l") (ascii "a\nb\nc\nd\ne\n")
      rfl (by decide)).imp (fun _ h => ⟨h.1, h.2.1⟩),
    (C18_page_counter_after_loop.2 "selpg" (cfg 1 5 2 "f") (ascii "A\x0cB\x0c")
      (by decide)).imp (fun _ h => ⟨h.1, h.2.1⟩)⟩

/-- C12: the start warning is missing in form-feed mode. The input
`"A\fB\f"` has two pages; with pages 3 to 3 asked for nothing is written and no
warning either, with pages 3 to 4 the end warning is written with "total pages
(3)"; an empty input in lines mode with pages 1 to 1 gives no warning; the
scenario of 5 lines with `-s3 -e4 -l10` gives the start warning with 3 and 1. -/
theorem C12_start_beyond_total :
    (chunks 12 (ascii "A\x0cB\x0c")).length = 2 ∧
    process_input "selpg" (cfg 3 3 10 "f") okSink (ascii "A\x0cB\x0c")
      = some { out := [], page_ctr := 3, line_ctr := 0, writes := 0, reads := 3,
               stderr := "", exit_code := 0 } ∧
    process_input "selpg" (cfg 3 4 10 "f") okSink (ascii "A\x0cB\x0c")
      = some { out := [], page_ctr := 3, line_ctr := 0, writes := 0, reads := 3,
               stderr := "selpg: end_page (4) greater than total pages (3), less output than expected\n",
               exit_code := 0 } ∧
    process_input "selpg" (cfg 1 1 10 "l") okSink []
      = some { out := [], page_ctr := 1, line_ctr := 0, writes := 0, reads := 1,
               stderr := "", exit_code := 0 } ∧
    (chunks 10 (numbered 1 5)).length = 5 ∧
    process_input "selpg" (cfg 3 4 10 "l") okSink (numbered 1 5)
      = some { out := [], page_ctr := 1, line_ctr := 5, writes := 0, reads := 6,
               stderr := "selpg: start_page (3) greater than total pages (1), no output written\n",
               exit_code := 0 } := by
  decide

/-- Lines mode with at least one line: the page counter after the loop is the
number of pages. -/
theorem lines_page_ctr_total (progname : String) (sa : sp_args) (input : List Byte)
    (ht : sa.page_type = "l") (hL : 1 ≤ sa.page_len)
    (hn : 1 ≤ totalPagesLines sa.page_len (chunks 10 input).length) :
    ∃ r, process_input progname sa okSink input = some r ∧
      r.page_ctr = totalPagesLines sa.page_len (chunks 10 input).length ∧
      r.out = concatWhere (fun k => sa.start_page ≤ pageOfLine sa.page_len k
        ∧ pageOfLine sa.page_len k ≤ sa.end_page) 1 (chunks 10 input) ∧
      r.stderr = range_warning progname sa r.page_ctr ∧ r.exit_code = 0 := by
  obtain ⟨r, h1, h2, h3, _, h5, h6⟩ := process_input_lines progname sa input ht hL
  refine ⟨r, h1, ?_, h2, h6, h5⟩
  have : r.page_ctr = (lineCounters sa.page_len (chunks 10 input).length).1 := by rw [← h3]
  rw [this, lineCounters_page _ hL]
  exact max_eq_right hn

/-- Lines mode with at least one line: a start page beyond the `T` pages of the
input gives no output and the start warning with `T`. -/
theorem lines_start_beyond_total (progname : String) (sa : sp_args) (input : List Byte)
    (ht : sa.page_type = "l") (hL : 1 ≤ sa.page_len)
    (hn : 1 ≤ totalPagesLines sa.page_len (chunks 10 input).length)
    (hs : totalPagesLines sa.page_len (chunks 10 input).length < sa.start_page) :
    ∃ r, process_input progname sa okSink input = some r ∧ r.out = [] ∧
      r.stderr = start_warning progname sa.start_page
        (totalPagesLines sa.page_len (chunks 10 input).length) ∧
      r.exit_code = 0 := by
  obtain ⟨r, h1, h2, h3, h4, h5⟩ := lines_page_ctr_total progname sa input ht hL hn
  refine ⟨r, h1, ?_, ?_, h5⟩
  · rw [h3]
    apply concatWhere_none
    intro i hi hj
    have hm := pageOfLine_mono sa.page_len hL (show i ≤ (chunks 10 input).length by omega)
    have h6 : pageOfLine sa.page_len (chunks 10 input).length
        = totalPagesLines sa.page_len (chunks 10 input).length := by
      rw [totalPagesLines_eq _ hL]; rfl
    omega
  · rw [h4, range_warning_eq, h2, if_pos hs]

/-- C13 as stated fails: the 25 lines `L1` .. `L25` make three pages of ten
lines, and with `-s1 -e3 -l10` all 25 lines are written and no warning at all;
in form-feed mode `"A\fB\f"` has two pages and pages 1 to 3 give both pages
and no warning. -/
theorem C13_counterexample :
    ((chunks 10 (numbered 1 25)).length = 25 ∧ totalPagesLines 10 25 = 3 ∧
      process_input "selpg" (cfg 1 3 10 "l") okSink (numbered 1 25)
        = some { out := numbered 1 25, page_ctr := 3, line_ctr := 5, writes := 25,
                 reads := 26, stderr := "", exit_code := 0 }) ∧
    ((chunks 12 (ascii "A\x0cB\x0c")).length = 2 ∧
      process_input "selpg" (cfg 1 3 10 "f") okSink (ascii "A\x0cB\x0c")
        = some { out := ascii "A\x0cB\x0c", page_ctr := 3, line_ctr := 0, writes := 2,
                 reads := 3, stderr := "", exit_code := 0 }) := by
  decide

/-- C13, amended: for every input with `T` pages and every configuration with
`1 ≤ start_page ≤ T < end_page`, `process_input` ends with exit code 0 and
writes all the pages from `start_page` on, in both modes; in lines mode
(`page_len ≥ 1`) it reports the warning "end_page (E) greater than total pages
(T), less output than expected". On 25 lines, `-s1 -e4 -l10` writes the 25
lines and reports the warning with 4 and 3; `-s1 -e3 -l10` writes the 25 lines
and reports nothing. -/
theorem C13_end_beyond_total_amended :
    (∀ (progname : String) (sa : sp_args) (input : List Byte),
      sa.page_type = "l" → 1 ≤ sa.page_len → 1 ≤ sa.start_page →
      sa.start_page ≤ totalPagesLines sa.page_len (chunks 10 input).length →
      totalPagesLines sa.page_len (chunks 10 input).length < sa.end_page →
      ∃ r, process_input progname sa okSink input = some r ∧
        r.out = concatWhere (fun k => sa.start_page ≤ pageOfLine sa.page_len k) 1
          (chunks 10 input) ∧
        r.stderr = end_warning progname sa.end_page
          (totalPagesLines sa.page_len (chunks 10 input).length) ∧
        r.exit_code = 0) ∧
    (∀ (progname : String) (sa : sp_args) (input : List Byte),
      sa.page_type ≠ "l" → 1 ≤ sa.start_page →
      sa.start_page ≤ ((chunks 12 input).length : Int) →
      ((chunks 12 input).length : Int) < sa.end_page →
      ∃ r, process_input progname sa okSink input = some r ∧
        r.out = concatWhere (fun i => sa.start_page ≤ (i : Int)) 1 (chunks 12 input) ∧
        r.exit_code = 0) ∧
    process_input "selpg" (cfg 1 4 10 "l") okSink (numbered 1 25)
      = some { out := numbered 1 25, page_ctr := 3, line_ctr := 5, writes := 25, reads := 26,
               stderr := "selpg: end_page (4) greater than total pages (3), less output than expected\n",
               exit_code := 0 } ∧
    process_input "selpg" (cfg 1 3 10 "l") okSink (numbered 1 25)
      = some { out := numbered 1 25, page_ctr := 3, line_ctr := 5, writes := 25, reads := 26,
               stderr := "", exit_code := 0 } := by
  refine ⟨?_, ?_, by decide, by decide⟩
  · intro progname sa input ht hL hs hsT hTe
    obtain ⟨r, h1, h2, h3, h4, h5⟩ :=
      lines_page_ctr_total progname sa input ht hL (by omega)
    refine ⟨r, h1, ?_, ?_, h5⟩
    · rw [h3]
      apply concatWhere_congr
      intro i hi hj
      have hm := pageOfLine_mono sa.page_len hL (show i ≤ (chunks 10 input).length by omega)
      have h6 : pageOfLine sa.page_len (chunks 10 input).length
          = totalPagesLines sa.page_len (chunks 10 input).length := by
        rw [totalPagesLines_eq _ hL]; rfl
      constructor
      · intro h; exact h.1
      · intro h; exact ⟨h, by omega⟩
    · rw [h4, range_warning_eq, h2, if_neg (by omega), if_pos hTe]
  · intro progname sa input ht hs hsT hTe
    obtain ⟨r, h1, h2, _, _, _, h5, _⟩ := process_input_ff progname sa input ht
    refine ⟨r, h1, ?_, h5⟩
    rw [h2]
    apply concatWhere_congr
    intro i hi hj
    constructor
    · intro h; exact h.1
    · intro h; exact ⟨h, by omega⟩

/-- C13 amended, at inputs: five lines with pages of two lines and pages 2 to
9, and three form-feed pages with pages 2 to 9. -/
theorem C13_end_beyond_total_amended_witness :
    (∃ r, process_input "selpg" (cfg 2 9 2 "l") okSink (ascii "a\nb\nc\nd\ne\n") = some r ∧
      r.out = concatWhere (fun k => (cfg 2 9 2 "l").start_page
        ≤ pageOfLine (cfg 2 9 2 "l").page_len k) 1 (chunks 10 (ascii "a\nb\nc\nd\ne\n")) ∧
      r.stderr = end_warning "selpg" (cfg 2 9 2 "l").end_page
        (totalPagesLines (cfg 2 9 2 "l").page_len
          (chunks 10 (ascii "a\nb\nc\nd\ne\n")).length) ∧
      r.exit_code = 0) ∧
    (∃ r, process_input "selpg" (cfg 2 9 2 "f") okSink (ascii "A\x0cB\x0cC\x0c") = some r ∧
      r.out = concatWhere (fun i => (cfg 2 9 2 "f").start_page ≤ (i : Int)) 1
        (chunks 12 (ascii "A\x0cB\x0cC\x0c")) ∧
      r.exit_code = 0) :=
  ⟨C13_end_beyond_total_amended.1 "selpg" (cfg 2 9 2 "l") (ascii "a\nb\nc\nd\ne\n")
      rfl (by decide) (by decide) (by decide) (by decide),
    C13_end_beyond_total_amended.2.1 "selpg" (cfg 2 9 2 "f") (ascii "A\x0cB\x0cC\x0c")
      (by decide) (by decide) (by decide) (by decide)⟩

/-- The lines loop after `k` of the lines of its input, started after `j` lines. -/
theorem loop_state_lines (sa : sp_args) (hL : 1 ≤ sa.page_len) :
    ∀ (k : Nat) (input : List Byte) (st : RunState) (j : Nat),
      (st.page_ctr, st.line_ctr) = lineCounters sa.page_len j →
      k ≤ (chunks 10 input).length →
      ∃ st1, loop_state 10 (lines_body sa okSink) k input st = .cont st1 ∧
        (st1.page_ctr, st1.line_ctr) = lineCounters sa.page_len (j + k) := by
  intro k
  induction k with
  | zero => intro input st j h _; exact ⟨st, rfl, by simpa using h⟩
  | succ k ih =>
    intro input st j h hk
    unfold loop_state
    cases hr : readString 10 input with
    | none =>
      rw [readString_none hr] at hk
      simp at hk
    | some p =>
      obtain ⟨c, rest⟩ := p
      obtain ⟨i1, _, _⟩ := readString_some hr
      rw [i1] at hk
      obtain ⟨st1, e1, e2, _⟩ :=
        lines_body_ok sa hL j { st with reads := st.reads + 1 } c h
      obtain ⟨st2, f1, f2⟩ := ih rest st1 (j + 1) e2
        (by simp only [List.length_cons] at hk; omega)
      refine ⟨st2, ?_, ?_⟩
      · simp only [e1, f1]
      · rw [f2]; congr 1; omega

/-- C16: lines-mode counter invariant. For every page length `L ≥ 1`, every
input and every `k ≥ 1` up to the number of its lines, after `k` passes the
lines loop has `page_ctr = floor((k - 1) / L) + 1` and `line_ctr = ((k - 1) mod
L) + 1`, so `1 ≤ line_ctr ≤ L` and `page_ctr ≥ 1`; against the state one pass
earlier `page_ctr` has not decreased and has grown by at most 1, `line_ctr` is
1 when `page_ctr` has grown and is one more than before when it has not (from
the second line on, `line_ctr = 1` exactly when `page_ctr` has grown). -/
theorem C16_lines_counter_invariant (sa : sp_args) (input : List Byte) (k : Nat)
    (hL : 1 ≤ sa.page_len) (hk : 1 ≤ k) (hn : k ≤ (chunks 10 input).length) :
    ∃ st0 st, loop_state 10 (lines_body sa okSink) (k - 1) input init_state = .cont st0 ∧
      loop_state 10 (lines_body sa okSink) k input init_state = .cont st ∧
      st.page_ctr = ((k : Int) - 1) / sa.page_len + 1 ∧
      st.line_ctr = ((k : Int) - 1) % sa.page_len + 1 ∧
      1 ≤ st.line_ctr ∧ st.line_ctr ≤ sa.page_len ∧ 1 ≤ st.page_ctr ∧
      st0.page_ctr ≤ st.page_ctr ∧ st.page_ctr ≤ st0.page_ctr + 1 ∧
      (st.page_ctr = st0.page_ctr + 1 → st.line_ctr = 1) ∧
      (st.page_ctr = st0.page_ctr → st.line_ctr = st0.line_ctr + 1) ∧
      (2 ≤ k → (st.line_ctr = 1 ↔ st.page_ctr = st0.page_ctr + 1)) := by
  obtain ⟨st0, a1, a2⟩ := loop_state_lines sa hL (k - 1) input init_state 0 rfl (by omega)
  obtain ⟨st, b1, b2⟩ := loop_state_lines sa hL k input init_state 0 rfl hn
  simp only [zero_add] at a2 b2
  have hs := lineCounters_succ sa.page_len hL (k - 1)
  have hk1 : k - 1 + 1 = k := by omega
  rw [hk1, ← a2, ← b2] at hs
  have hb : lineCounters sa.page_len k
      = (((k : Int) - 1) / sa.page_len + 1, ((k : Int) - 1) % sa.page_len + 1) := by
    have : ¬ k = 0 := by omega
    simp [lineCounters, this]
  rw [← b2] at hb
  have hp : st.page_ctr = ((k : Int) - 1) / sa.page_len + 1 := congrArg Prod.fst hb
  have hl : st.line_ctr = ((k : Int) - 1) % sa.page_len + 1 := congrArg Prod.snd hb
  have m1 := Int.emod_nonneg ((k : Int) - 1) (show sa.page_len ≠ 0 by omega)
  have m2 := Int.emod_lt_of_pos ((k : Int) - 1) (show 0 < sa.page_len by omega)
  have m3 : 0 ≤ ((k : Int) - 1) / sa.page_len := Int.ediv_nonneg (by omega) (by omega)
  have l0 : 2 ≤ k → 1 ≤ st0.line_ctr := by
    intro h2
    have : ¬ k - 1 = 0 := by omega
    have e : st0.line_ctr = (((k - 1 : Nat) : Int) - 1) % sa.page_len + 1 := by
      have := congrArg Prod.snd a2
      simpa [lineCounters, ‹¬ k - 1 = 0›] using this
    have := Int.emod_nonneg (((k - 1 : Nat) : Int) - 1) (show sa.page_len ≠ 0 by omega)
    omega
  refine ⟨st0, st, a1, b1, hp, hl, by omega, by omega, by omega, ?_⟩
  by_cases hgt : st0.line_ctr + 1 > sa.page_len
  · simp only [hgt, if_true, Prod.mk.injEq] at hs
    obtain ⟨e1, e2⟩ := hs
    refine ⟨by omega, by omega, fun _ => e2, fun h => by omega, fun _ => ⟨fun _ => e1, fun _ => e2⟩⟩
  · simp only [hgt, if_false, Prod.mk.injEq] at hs
    obtain ⟨e1, e2⟩ := hs
    refine ⟨by omega, by omega, fun h => by omega, fun _ => e2, fun h2 => ?_⟩
    have := l0 h2
    constructor
    · intro h; omega
    · intro h; omega

/-- C16, at an input: five lines, pages of two lines, after three lines. -/
theorem C16_lines_counter_invariant_witness :
    ∃ st0 st, loop_state 10 (lines_body (cfg 1 9 2 "l") okSink) (3 - 1)
        (ascii "a\nb\nc\nd\ne\n") init_state = .cont st0 ∧
      loop_state 10 (lines_body (cfg 1 9 2 "l") okSink) 3
        (ascii "a\nb\nc\nd\ne\n") init_state = .cont st ∧
      st.page_ctr = (((3 : Nat) : Int) - 1) / (cfg 1 9 2 "l").page_len + 1 ∧
      st.line_ctr = (((3 : Nat) : Int) - 1) % (cfg 1 9 2 "l").page_len + 1 ∧
      1 ≤ st.line_ctr ∧ st.line_ctr ≤ (cfg 1 9 2 "l").page_len ∧ 1 ≤ st.page_ctr ∧
      st0.page_ctr ≤ st.page_ctr ∧ st.page_ctr ≤ st0.page_ctr + 1 ∧
      (st.page_ctr = st0.page_ctr + 1 → st.line_ctr = 1) ∧
      (st.page_ctr = st0.page_ctr → st.line_ctr = st0.line_ctr + 1) ∧
      (2 ≤ 3 → (st.line_ctr = 1 ↔ st.page_ctr = st0.page_ctr + 1)) :=
  C16_lines_counter_invariant (cfg 1 9 2 "l") (ascii "a\nb\nc\nd\ne\n") 3
    (by decide) (by decide) (by decide)

theorem write_selected_spec (sa : sp_args) : body_spec (fun w => write_selected sa w) := by
  intro wfail st c
  by_cases hsel : st.page_ctr ≥ sa.start_page ∧ st.page_ctr ≤ sa.end_page
  · cases hw : wfail st.writes with
    | false =>
      left
      refine ⟨{ st with out := st.out ++ c, writes := st.writes + 1 }, ?_, ?_, rfl,
        Or.inr ⟨rfl, rfl, rfl⟩⟩
      · simp only [write_selected, hsel, and_self, if_true, hw, Bool.false_eq_true, if_false]
      · simp only [write_selected, hsel, and_self, if_true, okSink, Bool.false_eq_true,
          if_false]
    | true =>
      right
      refine ⟨{ st with writes := st.writes + 1 },
        { st with out := st.out ++ c, writes := st.writes + 1 }, ?_, rfl, rfl, rfl, rfl, ?_, rfl⟩
      · simp only [write_selected, hsel, and_self, if_true, hw]
      · simp only [write_selected, hsel, and_self, if_true, okSink, Bool.false_eq_true,
          if_false]
  · left
    refine ⟨st, ?_, ?_, rfl, Or.inl ⟨rfl, rfl⟩⟩
    · simp only [write_selected, hsel, if_false]
    · simp only [write_selected, hsel, if_false]

theorem lines_body_spec (sa : sp_args) : body_spec (fun w => lines_body sa w) := by
  intro wfail st c
  by_cases hgt : st.line_ctr + 1 > sa.page_len
  · rcases write_selected_spec sa wfail
        { st with page_ctr := st.page_ctr + 1, line_ctr := 1 } c with
      ⟨st1, h1, h2, h3, h4⟩ | ⟨st1, st2, h1, h2, h3, h4, h5, h6, h7⟩
    · left
      refine ⟨st1, ?_, ?_, h3, h4⟩
      · simp only at h1; simp only [lines_body, hgt, if_true, h1]
      · simp only at h2; simp only [lines_body, hgt, if_true, h2]
    · right
      refine ⟨{ st1 with printed_errors := st1.printed_errors ++ [st.writes] }, st2, ?_, h2,
        h3, h4, h5, ?_, h7⟩
      · simp only at h1; simp only [lines_body, hgt, if_true, h1]
      · simp only at h6; simp only [lines_body, hgt, if_true, h6]
  · rcases write_selected_spec sa wfail { st with line_ctr := st.line_ctr + 1 } c with
      ⟨st1, h1, h2, h3, h4⟩ | ⟨st1, st2, h1, h2, h3, h4, h5, h6, h7⟩
    · left
      refine ⟨st1, ?_, ?_, h3, h4⟩
      · simp only at h1; simp only [lines_body, hgt, if_false, h1]
      · simp only at h2; simp only [lines_body, hgt, if_false, h2]
    · right
      refine ⟨{ st1 with printed_errors := st1.printed_errors ++ [st.writes] }, st2, ?_, h2,
        h3, h4, h5, ?_, h7⟩
      · simp only at h1; simp only [lines_body, hgt, if_false, h1]
      · simp only at h6; simp only [lines_body, hgt, if_false, h6]

theorem ff_body_spec (sa : sp_args) : body_spec (fun w => ff_body sa w) := by
  intro wfail st c
  rcases write_selected_spec sa wfail st c with ⟨st1, h1, h2, h3, h4⟩ | ⟨st1, st2, h1, h2, h3, h4, h5, h6, h7⟩
  · left
    refine ⟨{ st1 with page_ctr := st1.page_ctr + 1 }, ?_, ?_, h3, h4⟩
    · simp only at h1; simp only [ff_body, h1]
    · simp only at h2; simp only [ff_body, h2]
  · right
    refine ⟨st1, { st2 with page_ctr := st2.page_ctr + 1 }, ?_, h2, h3, h4, h5, ?_, h7⟩
    · simp only at h1; simp only [ff_body, h1]
    · simp only at h6; simp only [ff_body, h6]

/-- A run that no failing write has stopped is the run on a sink that accepts
every write, and every write call it made was accepted. -/
theorem run_chunks_cont (body : (Nat → Bool) → RunState → List Byte → Step)
    (hb : body_spec body) (wfail : Nat → Bool) :
    ∀ (cs : List (List Byte)) (st s1 : RunState),
      run_chunks (body wfail) st cs = .cont s1 →
      run_chunks (body okSink) st cs = .cont s1 ∧ st.writes ≤ s1.writes ∧
        (∀ n, st.writes ≤ n → n < s1.writes → wfail n = false) := by
  intro cs
  induction cs with
  | nil =>
    intro st s1 h
    simp only [run_chunks, Step.cont.injEq] at h
    subst h
    exact ⟨rfl, le_refl _, fun n h1 h2 => absurd h2 (by simp only; omega)⟩
  | cons c cs ih =>
    intro st s1 h
    simp only [run_chunks] at h
    rcases hb wfail { st with reads := st.reads + 1 } c with
      ⟨st1, h1, h2, _, h4⟩ | ⟨st1, st2, h1, _⟩
    · rw [h1] at h
      obtain ⟨i1, i2, i3⟩ := ih st1 s1 h
      refine ⟨by simp only [run_chunks, h2]; exact i1, ?_, ?_⟩
      · rcases h4 with ⟨e, _⟩ | ⟨e, _, _⟩ <;> simp only at e <;> omega
      · intro n hn1 hn2
        rcases h4 with ⟨e, _⟩ | ⟨e, hw, _⟩
        · exact i3 n (by simp only at e; omega) hn2
        · simp only at e hw
          by_cases hn : n = st.writes
          · rw [hn]; exact hw
          · exact i3 n (by omega) hn2
    · rw [h1] at h; cases h

/-- A run stopped by a failing write: the chunks before the one whose write
failed were handled as on a sink that accepts every write. -/
theorem run_chunks_exit7 (body : (Nat → Bool) → RunState → List Byte → Step)
    (hb : body_spec body) (wfail : Nat → Bool) :
    ∀ (cs : List (List Byte)) (st s1 : RunState),
      run_chunks (body wfail) st cs = .exit7 s1 →
      ∃ pre c post s0, cs = pre ++ c :: post ∧
        run_chunks (body okSink) st pre = .cont s0 ∧
        (∀ n, st.writes ≤ n → n < s0.writes → wfail n = false) ∧ st.writes ≤ s0.writes ∧
        wfail s0.writes = true ∧
        s1.out = s0.out ∧ s1.writes = s0.writes + 1 ∧ s1.reads = s0.reads ∧
        s0.reads = st.reads + pre.length + 1 := by
  intro cs
  induction cs with
  | nil => intro st s1 h; simp [run_chunks] at h
  | cons c cs ih =>
    intro st s1 h
    simp only [run_chunks] at h
    rcases hb wfail { st with reads := st.reads + 1 } c with
      ⟨st1, h1, h2, h3, h4⟩ | ⟨st1, st2, h1, h2, h3, h4, h5, _⟩
    · rw [h1] at h
      obtain ⟨pre, c1, post, s0, e1, e2, e3, e4, e5, e6, e7, e8, e9⟩ := ih st1 s1 h
      refine ⟨c :: pre, c1, post, s0, by simp [e1], ?_, ?_, ?_, e5, e6, e7, e8, ?_⟩
      · simp only [run_chunks, h2]; exact e2
      · intro n hn1 hn2
        rcases h4 with ⟨e, _⟩ | ⟨e, hw, _⟩
        · exact e3 n (by simp only at e; omega) hn2
        · simp only at e hw
          by_cases hn : n = st.writes
          · rw [hn]; exact hw
          · exact e3 n (by omega) hn2
      · rcases h4 with ⟨e, _⟩ | ⟨e, _, _⟩ <;> simp only at e <;> omega
      · simp only at h3
        simp only [List.length_cons]; omega
    · rw [h1] at h
      simp only [Step.exit7.injEq] at h
      subst h
      refine ⟨[], c, cs, { st with reads := st.reads + 1 }, rfl, rfl, ?_, le_refl _, h2, h4,
        h3, h5, rfl⟩
      intro n hn1 hn2
      simp only at hn2
      omega

/-- The stream made of a well-formed chunk followed by more bytes. -/
theorem chunks_chunk_append (d : Byte) (ys : List Byte) :
    ∀ (body : List Byte), d ∉ body →
      chunks d (body ++ [d] ++ ys) = (body ++ [d]) :: chunks d ys ∧
      readString d (body ++ [d] ++ ys) = some (body ++ [d], ys) := by
  intro body
  induction body with
  | nil => intro _; simp [chunks, readString]
  | cons b bs ih =>
    intro h
    have hb : ¬ b = d := fun e => h (by simp [e])
    have hbs : d ∉ bs := fun e => h (by simp [e])
    obtain ⟨i1, i2⟩ := ih hbs
    constructor
    · simp only [List.cons_append, List.append_assoc] at i1 ⊢
      rw [chunks, if_neg hb, i1]
    · simp only [List.cons_append, List.append_assoc] at i2 ⊢
      rw [readString, if_neg hb, i2]

/-- The stream made of well-formed chunks followed by more bytes. -/
theorem chunks_flatten_append (d : Byte) (ys : List Byte) :
    ∀ (cs : List (List Byte)), (∀ c ∈ cs, ∃ body, c = body ++ [d] ∧ d ∉ body) →
      chunks d (cs.flatten ++ ys) = cs ++ chunks d ys := by
  intro cs
  induction cs with
  | nil => intro _; rfl
  | cons c cs ih =>
    intro h
    obtain ⟨body, e1, e2⟩ := h c (by simp)
    have i := ih (fun c1 hc1 => h c1 (by simp [hc1]))
    have := (chunks_chunk_append d (cs.flatten ++ ys) body e2).1
    simp only [List.flatten_cons, List.append_assoc, List.cons_append, e1] at this ⊢
    rw [this, i]

theorem mode_body_spec (sa : sp_args) :
    body_spec (fun w => if sa.page_type = "l" then lines_body sa w else ff_body sa w) := by
  by_cases h : sa.page_type = "l"
  · simpa only [h, if_true] using lines_body_spec sa
  · simpa only [h, if_false] using ff_body_spec sa

/-- On a sink that accepts every write a run is never stopped. -/
theorem run_chunks_okSink (body : (Nat → Bool) → RunState → List Byte → Step)
    (hb : body_spec body) :
    ∀ (cs : List (List Byte)) (st : RunState),
      ∃ s1, run_chunks (body okSink) st cs = .cont s1 := by
  intro cs
  induction cs with
  | nil => intro st; exact ⟨_, rfl⟩
  | cons c cs ih =>
    intro st
    rcases hb okSink { st with reads := st.reads + 1 } c with
      ⟨st1, h1, _⟩ | ⟨st1, st2, _, h2, _⟩
    · obtain ⟨s1, e⟩ := ih st1
      exact ⟨s1, by simp only [run_chunks, h1]; exact e⟩
    · simp [okSink] at h2

/-- The write that stopped a run is one that the run on a sink accepting every
write makes as well. -/
theorem run_chunks_exit7_lt (body : (Nat → Bool) → RunState → List Byte → Step)
    (hb : body_spec body) (wfail : Nat → Bool) :
    ∀ (cs : List (List Byte)) (st s1 sok : RunState),
      run_chunks (body wfail) st cs = .exit7 s1 →
      run_chunks (body okSink) st cs = .cont sok → s1.writes ≤ sok.writes := by
  intro cs
  induction cs with
  | nil => intro st s1 sok h; simp [run_chunks] at h
  | cons c cs ih =>
    intro st s1 sok h hok
    simp only [run_chunks] at h hok
    rcases hb wfail { st with reads := st.reads + 1 } c with
      ⟨st1, h1, h2, _, _⟩ | ⟨st1, st2, h1, _, h3, _, _, h6, h7⟩
    · rw [h1] at h
      rw [h2] at hok
      exact ih st1 s1 sok h hok
    · rw [h1] at h
      rw [h6] at hok
      simp only [Step.exit7.injEq] at h
      subst h
      have := (run_chunks_cont body hb okSink cs st2 sok hok).2.1
      omega

/-- The loop stopped or run to its end is the loop observed after enough passes. -/
theorem read_loop_loop_state (d : Byte) (body : RunState → List Byte → Step) :
    ∀ (fuel : Nat) (input : List Byte) (st : RunState), input.length < fuel →
      read_loop d body fuel input st = some (loop_state d body fuel input st) := by
  intro fuel
  induction fuel with
  | zero => intro input st h; omega
  | succ n ih =>
    intro input st h
    unfold read_loop loop_state
    cases hr : readString d input with
    | none => rfl
    | some p =>
      obtain ⟨c, r⟩ := p
      obtain ⟨_, i2, _⟩ := readString_some hr
      simp only
      cases hb : body { st with reads := st.reads + 1 } c with
      | cont st1 => exact ih r st1 (by omega)
      | exit7 st1 => rfl

/-- Enough iterations: the log of a loop on a stream is the log on its chunks. -/
theorem log_loop_eq (d : Byte) (body : RunState → List Byte → Step)
    (event : RunState → List Byte → List (Int × List Byte)) :
    ∀ (fuel : Nat) (input : List Byte) (st : RunState), input.length < fuel →
      log_loop d body event fuel input st = log_chunks body event st (chunks d input) := by
  intro fuel
  induction fuel with
  | zero => intro input st h; omega
  | succ n ih =>
    intro input st h
    unfold log_loop
    cases hr : readString d input with
    | none => simp [readString_none hr, log_chunks]
    | some p =>
      obtain ⟨c, r⟩ := p
      obtain ⟨i1, i2, _⟩ := readString_some hr
      simp only [i1, log_chunks]
      cases hb : body { st with reads := st.reads + 1 } c with
      | cont st1 => simp only; rw [ih r st1 (by omega)]
      | exit7 st1 => rfl

theorem write_log_eq (sa : sp_args) (wfail : Nat → Bool) (input : List Byte) :
    write_log sa wfail input =
      log_chunks (if sa.page_type = "l" then lines_body sa wfail else ff_body sa wfail)
        (if sa.page_type = "l" then lines_event sa wfail else ff_event sa wfail)
        { page_ctr := 1, line_ctr := 0, out := [], writes := 0, reads := 0 }
        (chunks (delimOf sa) input) := by
  unfold write_log delimOf
  by_cases h : sa.page_type = "l"
  · simp only [h, if_true, log_loop_eq _ _ _ _ _ _ (Nat.lt_succ_self _)]; rfl
  · simp only [h, if_false, log_loop_eq _ _ _ _ _ _ (Nat.lt_succ_self _)]; rfl

theorem write_selected_log_spec (sa : sp_args) (wfail : Nat → Bool) (st : RunState)
    (c : List Byte) :
    (¬ (sa.start_page ≤ st.page_ctr ∧ st.page_ctr ≤ sa.end_page) ∧
        write_event sa wfail st c = [] ∧ write_selected sa wfail st c = .cont st) ∨
    ((sa.start_page ≤ st.page_ctr ∧ st.page_ctr ≤ sa.end_page) ∧
        write_event sa wfail st c = [(st.page_ctr, c)] ∧
        write_selected sa wfail st c
          = .cont { st with out := st.out ++ c, writes := st.writes + 1 }) ∨
    (write_event sa wfail st c = [] ∧
        write_selected sa wfail st c = .exit7 { st with writes := st.writes + 1 }) := by
  by_cases hsel : st.page_ctr ≥ sa.start_page ∧ st.page_ctr ≤ sa.end_page
  · cases hw : wfail st.writes with
    | false =>
      right; left
      refine ⟨hsel, ?_, ?_⟩
      · simp only [write_event, hsel, and_self, if_true, hw, Bool.false_eq_true, if_false]
      · simp only [write_selected, hsel, and_self, if_true, hw, Bool.false_eq_true, if_false]
    | true =>
      right; right
      refine ⟨?_, ?_⟩
      · simp only [write_event, hsel, and_self, if_true, hw]
      · simp only [write_selected, hsel, and_self, if_true, hw]
  · left
    refine ⟨hsel, ?_, ?_⟩
    · simp only [write_event, hsel, if_false]
    · simp only [write_selected, hsel, if_false]

theorem lines_log_spec (sa : sp_args) (wfail : Nat → Bool) :
    log_spec sa.start_page sa.end_page (lines_body sa wfail) (lines_event sa wfail) := by
  intro st c
  by_cases hgt : st.line_ctr + 1 > sa.page_len
  · refine ⟨st.page_ctr + 1, by omega, ?_⟩
    rcases write_selected_log_spec sa wfail
        { st with page_ctr := st.page_ctr + 1, line_ctr := 1 } c with
      ⟨a, b, c1⟩ | ⟨a, b, c1⟩ | ⟨b, c1⟩
    · refine Or.inl ⟨a, ?_, { st with page_ctr := st.page_ctr + 1, line_ctr := 1 }, ?_,
        le_refl _, rfl⟩
      · simp only [lines_event, hgt, if_true, b]
      · simp only [lines_body, hgt, if_true, c1]
    · refine Or.inr (Or.inl ⟨a, ?_,
        { st with page_ctr := st.page_ctr + 1, line_ctr := 1, out := st.out ++ c,
                  writes := st.writes + 1 }, ?_, le_refl _, rfl⟩)
      · simp only [lines_event, hgt, if_true, b]
      · simp only [lines_body, hgt, if_true, c1]
    · refine Or.inr (Or.inr ⟨?_,
        { st with page_ctr := st.page_ctr + 1, line_ctr := 1, writes := st.writes + 1,
                  printed_errors := st.printed_errors ++ [st.writes] }, ?_, rfl⟩)
      · simp only [lines_event, hgt, if_true, b]
      · simp only [lines_body, hgt, if_true, c1]
  · refine ⟨st.page_ctr, le_refl _, ?_⟩
    rcases write_selected_log_spec sa wfail { st with line_ctr := st.line_ctr + 1 } c with
      ⟨a, b, c1⟩ | ⟨a, b, c1⟩ | ⟨b, c1⟩
    · refine Or.inl ⟨a, ?_, { st with line_ctr := st.line_ctr + 1 }, ?_, le_refl _, rfl⟩
      · simp only [lines_event, hgt, if_false, b]
      · simp only [lines_body, hgt, if_false, c1]
    · refine Or.inr (Or.inl ⟨a, ?_,
        { st with line_ctr := st.line_ctr + 1, out := st.out ++ c, writes := st.writes + 1 },
        ?_, le_refl _, rfl⟩)
      · simp only [lines_event, hgt, if_false, b]
      · simp only [lines_body, hgt, if_false, c1]
    · refine Or.inr (Or.inr ⟨?_,
        { st with line_ctr := st.line_ctr + 1, writes := st.writes + 1,
                  printed_errors := st.printed_errors ++ [st.writes] }, ?_, rfl⟩)
      · simp only [lines_event, hgt, if_false, b]
      · simp only [lines_body, hgt, if_false, c1]

theorem ff_log_spec (sa : sp_args) (wfail : Nat → Bool) :
    log_spec sa.start_page sa.end_page (ff_body sa wfail) (ff_event sa wfail) := by
  intro st c
  refine ⟨st.page_ctr, le_refl _, ?_⟩
  have h := write_selected_log_spec sa wfail st c
  simp only [ff_body, ff_event]
  rcases h with ⟨a, b, c1⟩ | ⟨a, b, c1⟩ | ⟨b, c1⟩
  · exact Or.inl ⟨a, b, { st with page_ctr := st.page_ctr + 1 }, by rw [c1],
      by simp only; omega, rfl⟩
  · exact Or.inr (Or.inl ⟨a, b,
      { st with out := st.out ++ c, writes := st.writes + 1, page_ctr := st.page_ctr + 1 },
      by rw [c1], by simp only; omega, rfl⟩)
  · exact Or.inr (Or.inr ⟨b, { st with writes := st.writes + 1 }, by rw [c1], rfl⟩)

/-- Once the page counter is beyond the end page nothing more is written. -/
theorem log_after (s e : Int) (body : RunState → List Byte → Step)
    (event : RunState → List Byte → List (Int × List Byte))
    (h : log_spec s e body event) :
    ∀ (cs : List (List Byte)) (st : RunState), e < st.page_ctr →
      log_chunks body event st cs = [] := by
  intro cs
  induction cs with
  | nil => intro st _; rfl
  | cons c cs ih =>
    intro st hp
    obtain ⟨q, hq, hc⟩ := h { st with reads := st.reads + 1 } c
    simp only at hq
    rcases hc with ⟨_, ev, st1, hb, hq1, _⟩ | ⟨hsel, _⟩ | ⟨ev, st1, hb, _⟩
    · simp only [log_chunks, ev, hb, List.nil_append]
      exact ih st1 (by omega)
    · omega
    · simp only [log_chunks, ev, hb, List.nil_append]

/-- The bytes on the sink are the logged chunks, one after the other. -/
theorem log_out (s e : Int) (body : RunState → List Byte → Step)
    (event : RunState → List Byte → List (Int × List Byte))
    (h : log_spec s e body event) :
    ∀ (cs : List (List Byte)) (st : RunState),
      ∃ s1, (run_chunks body st cs = .cont s1 ∨ run_chunks body st cs = .exit7 s1) ∧
        s1.out = st.out ++ ((log_chunks body event st cs).map Prod.snd).flatten := by
  intro cs
  induction cs with
  | nil => intro st; exact ⟨_, Or.inl rfl, by simp [log_chunks]⟩
  | cons c cs ih =>
    intro st
    obtain ⟨q, _, hc⟩ := h { st with reads := st.reads + 1 } c
    rcases hc with ⟨_, ev, st1, hb, _, ho⟩ | ⟨_, ev, st1, hb, _, ho⟩ | ⟨ev, st1, hb, ho⟩
    · obtain ⟨s1, i1, i2⟩ := ih st1
      refine ⟨s1, by simpa only [run_chunks, hb] using i1, ?_⟩
      simp only [log_chunks, ev, hb, List.nil_append]
      rw [i2, ho]
    · obtain ⟨s1, i1, i2⟩ := ih st1
      refine ⟨s1, by simpa only [run_chunks, hb] using i1, ?_⟩
      simp only [log_chunks, ev, hb, List.singleton_append, List.map_cons, List.flatten_cons]
      rw [i2, ho]
      simp
    · refine ⟨st1, Or.inr (by simp only [run_chunks, hb]), ?_⟩
      simp only [log_chunks, ev, hb, List.nil_append, List.map_nil, List.flatten_nil,
        List.append_nil]
      exact ho

/-- The pages of the logged writes lie within the pages asked for, are not
below the page counter at the start, and do not decrease. -/
theorem log_pages (s e : Int) (body : RunState → List Byte → Step)
    (event : RunState → List Byte → List (Int × List Byte))
    (h : log_spec s e body event) :
    ∀ (cs : List (List Byte)) (st : RunState),
      (∀ p ∈ (log_chunks body event st cs).map Prod.fst, st.page_ctr ≤ p ∧ s ≤ p ∧ p ≤ e) ∧
      List.Pairwise (fun a b => a ≤ b) ((log_chunks body event st cs).map Prod.fst) := by
  intro cs
  induction cs with
  | nil => intro st; simp [log_chunks]
  | cons c cs ih =>
    intro st
    obtain ⟨q, hq, hc⟩ := h { st with reads := st.reads + 1 } c
    simp only at hq
    rcases hc with ⟨_, ev, st1, hb, hq1, _⟩ | ⟨hsel, ev, st1, hb, hq1, _⟩ | ⟨ev, st1, hb, _⟩
    · obtain ⟨i1, i2⟩ := ih st1
      simp only [log_chunks, ev, hb, List.nil_append]
      refine ⟨fun p hp => ?_, i2⟩
      have := i1 p hp
      omega
    · obtain ⟨i1, i2⟩ := ih st1
      simp only [log_chunks, ev, hb, List.singleton_append, List.map_cons, List.mem_cons,
        List.pairwise_cons]
      refine ⟨fun p hp => ?_, fun p hp => ?_, i2⟩
      · rcases hp with hp | hp
        · subst hp; omega
        · have := i1 p hp
          omega
      · have := i1 p hp
        omega
    · simp [log_chunks, ev, hb]

/-- Once the page counter has reached the start page, the logged chunks are
the first chunks of the list. -/
theorem log_prefix (s e : Int) (body : RunState → List Byte → Step)
    (event : RunState → List Byte → List (Int × List Byte))
    (h : log_spec s e body event) :
    ∀ (cs : List (List Byte)) (st : RunState), s ≤ st.page_ctr →
      ∃ b, cs = (log_chunks body event st cs).map Prod.snd ++ b := by
  intro cs
  induction cs with
  | nil => intro st _; exact ⟨[], rfl⟩
  | cons c cs ih =>
    intro st hp
    obtain ⟨q, hq, hc⟩ := h { st with reads := st.reads + 1 } c
    simp only at hq
    rcases hc with ⟨hsel, ev, st1, hb, hq1, _⟩ | ⟨hsel, ev, st1, hb, hq1, _⟩ | ⟨ev, st1, hb, _⟩
    · have := log_after s e body event h cs st1 (by omega)
      exact ⟨c :: cs, by simp [log_chunks, ev, hb, this]⟩
    · obtain ⟨b, hb1⟩ := ih st1 (by omega)
      refine ⟨b, ?_⟩
      simp only [log_chunks, ev, hb, List.singleton_append, List.map_cons, List.cons_append,
        List.nil_append, List.cons.injEq, true_and]
      exact hb1
    · exact ⟨c :: cs, by simp [log_chunks, ev, hb]⟩

/-- The logged chunks are consecutive chunks of the list. -/
theorem log_infix (s e : Int) (body : RunState → List Byte → Step)
    (event : RunState → List Byte → List (Int × List Byte))
    (h : log_spec s e body event) :
    ∀ (cs : List (List Byte)) (st : RunState),
      ∃ a b, cs = a ++ (log_chunks body event st cs).map Prod.snd ++ b := by
  intro cs
  induction cs with
  | nil => intro st; exact ⟨[], [], rfl⟩
  | cons c cs ih =>
    intro st
    obtain ⟨q, hq, hc⟩ := h { st with reads := st.reads + 1 } c
    rcases hc with ⟨hsel, ev, st1, hb, hq1, _⟩ | ⟨hsel, ev, st1, hb, hq1, _⟩ | ⟨ev, st1, hb, _⟩
    · obtain ⟨a, b, hab⟩ := ih st1
      refine ⟨c :: a, b, ?_⟩
      simp only [log_chunks, ev, hb, List.nil_append, List.cons_append]
      rw [← hab]
    · obtain ⟨b, hb1⟩ := log_prefix s e body event h cs st1 (by omega)
      refine ⟨[], b, ?_⟩
      simp only [log_chunks, ev, hb, List.singleton_append, List.map_cons, List.nil_append,
        List.cons_append, List.cons.injEq, true_and]
      exact hb1
    · exact ⟨[], c :: cs, by simp [log_chunks, ev, hb]⟩

theorem mode_log_spec (sa : sp_args) (wfail : Nat → Bool) :
    log_spec sa.start_page sa.end_page
      (if sa.page_type = "l" then lines_body sa wfail else ff_body sa wfail)
      (if sa.page_type = "l" then lines_event sa wfail else ff_event sa wfail) := by
  by_cases h : sa.page_type = "l"
  · simpa only [h, if_true] using lines_log_spec sa wfail
  · simpa only [h, if_false] using ff_log_spec sa wfail

/-- C17: ordering. In both modes, for every input, configuration and sink,
`process_input` ends, the bytes on the sink are the chunks of the accepted
`Write` calls one after the other, these chunks are a subsequence of the
chunks of the input in input order, indeed consecutive chunks of the input
(so the output is one contiguous block of the input bytes), and the page
counters under which successive chunks are written do not decrease and lie
between `start_page` and `end_page`. -/
theorem C17_write_order (progname : String) (sa : sp_args) (wfail : Nat → Bool)
    (input : List Byte) :
    ∃ r, process_input progname sa wfail input = some r ∧
      r.out = ((write_log sa wfail input).map Prod.snd).flatten ∧
      List.Sublist ((write_log sa wfail input).map Prod.snd) (chunks (delimOf sa) input) ∧
      (∃ a b, chunks (delimOf sa) input
        = a ++ (write_log sa wfail input).map Prod.snd ++ b) ∧
      (∃ a b, input = a ++ r.out ++ b) ∧
      List.Pairwise (fun p q => p ≤ q) ((write_log sa wfail input).map Prod.fst) ∧
      (∀ p ∈ (write_log sa wfail input).map Prod.fst, sa.start_page ≤ p ∧ p ≤ sa.end_page) := by
  have hs := mode_log_spec sa wfail
  have e1 := process_input_eq progname sa wfail input
  rw [write_log_eq]
  obtain ⟨s1, o1, o2⟩ := log_out _ _ _ _ hs (chunks (delimOf sa) input)
    { page_ctr := 1, line_ctr := 0, out := [], writes := 0, reads := 0 }
  obtain ⟨p1, p2⟩ := log_pages _ _ _ _ hs (chunks (delimOf sa) input)
    { page_ctr := 1, line_ctr := 0, out := [], writes := 0, reads := 0 }
  obtain ⟨a, b, hab⟩ := log_infix _ _ _ _ hs (chunks (delimOf sa) input)
    { page_ctr := 1, line_ctr := 0, out := [], writes := 0, reads := 0 }
  simp only [List.nil_append] at o2
  generalize log_chunks (if sa.page_type = "l" then lines_body sa wfail else ff_body sa wfail)
    (if sa.page_type = "l" then lines_event sa wfail else ff_event sa wfail)
    { page_ctr := 1, line_ctr := 0, out := [], writes := 0, reads := 0 }
    (chunks (delimOf sa) input) = lg at o2 p1 p2 hab ⊢
  have hout : (finish progname sa (run_chunks
      (if sa.page_type = "l" then lines_body sa wfail else ff_body sa wfail)
      { page_ctr := 1, line_ctr := 0, out := [], writes := 0, reads := 0 }
      (chunks (delimOf sa) input))).out = s1.out := by
    rcases o1 with o1 | o1 <;> rw [o1] <;> rfl
  refine ⟨_, e1, ?_, ?_, ⟨a, b, hab⟩, ?_, p2, fun p hp => (p1 p hp).2⟩
  · rw [hout, o2]
  · rw [hab]
    exact (List.sublist_append_right a _).trans (List.sublist_append_left _ b)
  · obtain ⟨tail, _, t2⟩ := uptoLastDelim_split (delimOf sa) input
    rw [← chunks_flatten, hab] at t2
    refine ⟨a.flatten, b.flatten ++ tail, ?_⟩
    rw [hout, o2]
    simpa [List.append_assoc] using t2

/-- C17, at an input: four lines, one line a page, pages 2 to 3: the second
and the third line are written, under page counters 2 and 3. -/
theorem C17_write_order_witness :
    write_log (cfg 2 3 1 "l") okSink (ascii "a\nb\nc\nd\n")
      = [(2, ascii "b\n"), (3, ascii "c\n")] ∧
    ∃ r, process_input "selpg" (cfg 2 3 1 "l") okSink (ascii "a\nb\nc\nd\n") = some r ∧
      r.out = ((write_log (cfg 2 3 1 "l") okSink (ascii "a\nb\nc\nd\n")).map Prod.snd).flatten ∧
      List.Sublist ((write_log (cfg 2 3 1 "l") okSink (ascii "a\nb\nc\nd\n")).map Prod.snd)
        (chunks (delimOf (cfg 2 3 1 "l")) (ascii "a\nb\nc\nd\n")) ∧
      (∃ a b, chunks (delimOf (cfg 2 3 1 "l")) (ascii "a\nb\nc\nd\n")
        = a ++ (write_log (cfg 2 3 1 "l") okSink (ascii "a\nb\nc\nd\n")).map Prod.snd ++ b) ∧
      (∃ a b, ascii "a\nb\nc\nd\n" = a ++ r.out ++ b) ∧
      List.Pairwise (fun p q => p ≤ q)
        ((write_log (cfg 2 3 1 "l") okSink (ascii "a\nb\nc\nd\n")).map Prod.fst) ∧
      (∀ p ∈ (write_log (cfg 2 3 1 "l") okSink (ascii "a\nb\nc\nd\n")).map Prod.fst,
        (cfg 2 3 1 "l").start_page ≤ p ∧ p ≤ (cfg 2 3 1 "l").end_page) :=
  ⟨by decide, C17_write_order "selpg" (cfg 2 3 1 "l") okSink (ascii "a\nb\nc\nd\n")⟩

/-- When the flag library stops the program, none of the checks is reached. -/
theorem process_args_cmdline_stopped (progname : String) (args : List String)
    (flag_parse : List String → ParseOutcome) (stat : String → StatResult)
    (sa : sp_args) (code : Nat) (msg : String) (usage : Bool)
    (h : flag_parse args = .stopped sa code msg usage) :
    process_args_cmdline progname args flag_parse stat = .exited code msg usage := by
  simp only [process_args_cmdline, h]

/-- When `flag.Parse()` returns, the checks are made on what it has bound. -/
theorem process_args_cmdline_parsed (progname : String) (args : List String)
    (flag_parse : List String → ParseOutcome) (stat : String → StatResult)
    (sa : sp_args) (positional : List String)
    (h : flag_parse args = .parsed sa positional) :
    process_args_cmdline progname args flag_parse stat
      = process_args progname args sa positional stat := by
  simp only [process_args_cmdline, h]

/-- C8 as stated fails: `selpg -s 0 -l 3 -e 2` has seven tokens, they do not
start with `-s`, value, `-e`, value, the flag library accepts them (start page
0, page length 3, end page 2), and `process_args` exits with code 3 (the start
page is checked before the place of `-e`), not with code 2. -/
theorem C8_counterexample :
    5 ≤ ["selpg", "-s", "0", "-l", "3", "-e", "2"].length ∧
    ¬ (["selpg", "-s", "0", "-l", "3", "-e", "2"].get? 1 = some "-s"
      ∧ ["selpg", "-s", "0", "-l", "3", "-e", "2"].get? 3 = some "-e") ∧
    process_args_cmdline "selpg" ["selpg", "-s", "0", "-l", "3", "-e", "2"]
      (parsed_as (cfg 0 2 3 "l") []) statFound
      = .exited 3 "selpg: invalid start page %!s(int=0)\n" true := by
  decide

/-- C8, amended: for every command line from which `flag.Parse()` returns:
with at least three tokens and a token `argv[1]` that is not `-s`,
`process_args` exits with code 2 and the message that the 1st arg should be
`-s`, whatever the numeric values; with at least four tokens, `argv[1] = -s`
and a token `argv[3]` that is not `-e`, it exits with code 2 and the message
that the 2nd arg should be `-e` when `1 ≤ start_page ≤ INT_MAX - 1`, and with
code 3 when not. When the flag library rejects the command line, the program
ends in the parser with the parser's exit code, before these checks.
`selpg -e5 -s1` exits with code 2 and the message about `-s`. -/
theorem C8_ordering_amended :
    (∀ (progname : String) (args : List String) (flag_parse : List String → ParseOutcome)
      (stat : String → StatResult) (sa : sp_args) (positional : List String),
      flag_parse args = .parsed sa positional →
      (3 ≤ args.length → args.get? 1 ≠ some "-s" →
        process_args_cmdline progname args flag_parse stat
          = .exited 2 (progname ++ ": 1st arg should be -s start_page\n") true) ∧
      (4 ≤ args.length → args.get? 1 = some "-s" → args.get? 3 ≠ some "-e" →
        (1 ≤ sa.start_page ∧ sa.start_page ≤ INT_MAX - 1 →
          process_args_cmdline progname args flag_parse stat
            = .exited 2 (progname ++ ": 2nd arg should be -e end_page\n") true) ∧
        (¬ (1 ≤ sa.start_page ∧ sa.start_page ≤ INT_MAX - 1) →
          process_args_cmdline progname args flag_parse stat
            = .exited 3 (progname ++ ": invalid start page " ++ badVerbS sa.start_page
              ++ "\n") true))) ∧
    (∀ (progname : String) (args : List String) (flag_parse : List String → ParseOutcome)
      (stat : String → StatResult) (sa : sp_args) (code : Nat) (msg : String) (usage : Bool),
      flag_parse args = .stopped sa code msg usage →
      process_args_cmdline progname args flag_parse stat = .exited code msg usage) ∧
    process_args_cmdline "selpg" ["selpg", "-e5", "-s1"] (parsed_as (cfg 1 5 10 "l") [])
      statFound = .exited 2 "selpg: 1st arg should be -s start_page\n" true := by
  refine ⟨?_, ?_, by decide⟩
  · intro progname args flag_parse stat sa positional hp
    rw [process_args_cmdline_parsed progname args flag_parse stat sa positional hp]
    exact ⟨checks_ordering.1 progname args sa positional stat,
      checks_ordering.2.1 progname args sa positional stat⟩
  · intro progname args flag_parse stat sa code msg usage hp
    exact process_args_cmdline_stopped progname args flag_parse stat sa code msg usage hp

/-- C8 amended, at inputs: `selpg -l 3 -s 1 -e 2`, `selpg -s 1 -l 3 -e 2`,
`selpg -s 0 -l 3 -e 2`, which the flag library accepts, and `selpg -x 1 -e 2`,
which it rejects. -/
theorem C8_ordering_amended_witness :
    process_args_cmdline "selpg" ["selpg", "-l", "3", "-s", "1", "-e", "2"]
      (parsed_as (cfg 1 2 3 "l") []) statFound
      = .exited 2 ("selpg" ++ ": 1st arg should be -s start_page\n") true ∧
    process_args_cmdline "selpg" ["selpg", "-s", "1", "-l", "3", "-e", "2"]
      (parsed_as (cfg 1 2 3 "l") []) statFound
      = .exited 2 ("selpg" ++ ": 2nd arg should be -e end_page\n") true ∧
    process_args_cmdline "selpg" ["selpg", "-s", "0", "-l", "3", "-e", "2"]
      (parsed_as (cfg 0 2 3 "l") []) statFound
      = .exited 3 ("selpg" ++ ": invalid start page "
        ++ badVerbS (cfg 0 2 3 "l").start_page ++ "\n") true ∧
    process_args_cmdline "selpg" ["selpg", "-x", "1", "-e", "2"]
      (rejected_as (cfg 0 0 10 "l") "unknown shorthand flag: 'x' in -x") statFound
      = .exited 2 "unknown shorthand flag: 'x' in -x" true :=
  ⟨(C8_ordering_amended.1 "selpg" ["selpg", "-l", "3", "-s", "1", "-e", "2"]
      (parsed_as (cfg 1 2 3 "l") []) statFound (cfg 1 2 3 "l") [] rfl).1
      (by decide) (by decide),
    ((C8_ordering_amended.1 "selpg" ["selpg", "-s", "1", "-l", "3", "-e", "2"]
      (parsed_as (cfg 1 2 3 "l") []) statFound (cfg 1 2 3 "l") [] rfl).2
      (by decide) (by decide) (by decide)).1 (by decide),
    ((C8_ordering_amended.1 "selpg" ["selpg", "-s", "0", "-l", "3", "-e", "2"]
      (parsed_as (cfg 0 2 3 "l") []) statFound (cfg 0 2 3 "l") [] rfl).2
      (by decide) (by decide) (by decide)).2 (by decide),
    C8_ordering_amended.2.1 "selpg" ["selpg", "-x", "1", "-e", "2"]
      (rejected_as (cfg 0 0 10 "l") "unknown shorthand flag: 'x' in -x") statFound
      (cfg 0 0 10 "l") 2 "unknown shorthand flag: 'x' in -x" true rfl⟩

/-- C9 as stated fails: `selpg -e5 -s1` has three tokens, fewer than the five
of program name, `-s`, value, `-e`, value; the flag library accepts it (end
page 5, start page 1) and `process_args` exits with code 2, not with code 1. -/
theorem C9_counterexample :
    ["selpg", "-e5", "-s1"].length < 5 ∧
    process_args_cmdline "selpg" ["selpg", "-e5", "-s1"] (parsed_as (cfg 1 5 10 "l") [])
      statFound = .exited 2 "selpg: 1st arg should be -s start_page\n" true := by
  decide

/-- C9, amended: every invocation with fewer than three tokens (program name
and two arguments, the minimum the source names) from which `flag.Parse()`
returns is rejected by `process_args` with exit code 1 and the message "not
enough arguments", followed by the usage; among the invocations from which
`flag.Parse()` returns no other one gives exit code 1; an invocation that the
flag library rejects ends in the parser with the parser's exit code, before
the length check; `selpg -s1` exits with code 1. -/
theorem C9_not_enough_arguments_amended :
    (∀ (progname : String) (args : List String) (flag_parse : List String → ParseOutcome)
      (stat : String → StatResult) (sa : sp_args) (positional : List String),
      flag_parse args = .parsed sa positional →
      (args.length < 3 →
        process_args_cmdline progname args flag_parse stat
          = .exited 1 (progname ++ ": not enough arguments\n") true) ∧
      (∀ (msg : String) (usage : Bool),
        process_args_cmdline progname args flag_parse stat = .exited 1 msg usage →
        args.length < 3)) ∧
    (∀ (progname : String) (args : List String) (flag_parse : List String → ParseOutcome)
      (stat : String → StatResult) (sa : sp_args) (code : Nat) (msg : String) (usage : Bool),
      flag_parse args = .stopped sa code msg usage →
      process_args_cmdline progname args flag_parse stat = .exited code msg usage) ∧
    process_args_cmdline "selpg" ["selpg", "-s1"] (parsed_as (cfg 1 0 10 "l") []) statFound
      = .exited 1 "selpg: not enough arguments\n" true := by
  refine ⟨?_, ?_, by decide⟩
  · intro progname args flag_parse stat sa positional hp
    rw [process_args_cmdline_parsed progname args flag_parse stat sa positional hp]
    exact ⟨checks_exit_code_1.1 progname args sa positional stat,
      fun msg usage h => checks_exit_code_1.2.1 progname args sa positional stat msg usage h⟩
  · intro progname args flag_parse stat sa code msg usage hp
    exact process_args_cmdline_stopped progname args flag_parse stat sa code msg usage hp

/-- C9 amended, at inputs: `selpg` alone, which the flag library accepts, and
`selpg -x`, which it rejects. -/
theorem C9_not_enough_arguments_amended_witness :
    process_args_cmdline "selpg" ["selpg"] (parsed_as (cfg 0 0 10 "l") []) statFound
      = .exited 1 ("selpg" ++ ": not enough arguments\n") true ∧
    process_args_cmdline "selpg" ["selpg", "-x"]
      (rejected_as (cfg 0 0 10 "l") "unknown shorthand flag: 'x' in -x") statFound
      = .exited 2 "unknown shorthand flag: 'x' in -x" true :=
  ⟨(C9_not_enough_arguments_amended.1 "selpg" ["selpg"] (parsed_as (cfg 0 0 10 "l") [])
      statFound (cfg 0 0 10 "l") [] rfl).1 (by decide),
    C9_not_enough_arguments_amended.2.1 "selpg" ["selpg", "-x"]
      (rejected_as (cfg 0 0 10 "l") "unknown shorthand flag: 'x' in -x") statFound
      (cfg 0 0 10 "l") 2 "unknown shorthand flag: 'x' in -x" true rfl⟩

/-- C10 as stated fails: in `selpg -s 0 -e 2 -x` the tokens `argv[1]` and
`argv[3]` are `-s` and `-e` and the start page 0 is below 1, but the flag
library rejects the token `-x` and the program ends in the parser with exit
code 2, not with exit code 3. -/
theorem C10_counterexample :
    ["selpg", "-s", "0", "-e", "2", "-x"].get? 1 = some "-s" ∧
    ["selpg", "-s", "0", "-e", "2", "-x"].get? 3 = some "-e" ∧
    (cfg 0 2 10 "l").start_page < 1 ∧
    process_args_cmdline "selpg" ["selpg", "-s", "0", "-e", "2", "-x"]
      (rejected_as (cfg 0 2 10 "l") "unknown shorthand flag: 'x' in -x") statFound
      = .exited 2 "unknown shorthand flag: 'x' in -x" true := by
  decide

/-- C10, amended: for every invocation from which `flag.Parse()` returns and
whose tokens `argv[1]` and `argv[3]` are `-s` and `-e`, `process_args` exits
with code 3 if and only if `start_page < 1`, or `start_page > INT_MAX - 1`, or
`end_page < 1`, or `end_page > INT_MAX - 1`, or `end_page < start_page`, or
`page_len < 1`, or `page_len > INT_MAX - 1` (`INT_MAX = 1 << 32`), and under
such a numeric error no other exit code is produced; an invocation that the
flag library rejects ends in the parser with the parser's exit code, whatever
the numeric values. -/
theorem C10_exit_code_3_amended :
    (∀ (progname : String) (args : List String) (flag_parse : List String → ParseOutcome)
      (stat : String → StatResult) (sa : sp_args) (positional : List String),
      flag_parse args = .parsed sa positional →
      args.get? 1 = some "-s" → args.get? 3 = some "-e" →
      ((∃ msg usage, process_args_cmdline progname args flag_parse stat
          = .exited 3 msg usage) ↔
        (sa.start_page < 1 ∨ sa.start_page > INT_MAX - 1 ∨ sa.end_page < 1
          ∨ sa.end_page > INT_MAX - 1 ∨ sa.end_page < sa.start_page ∨ sa.page_len < 1
          ∨ sa.page_len > INT_MAX - 1)) ∧
      ((sa.start_page < 1 ∨ sa.start_page > INT_MAX - 1 ∨ sa.end_page < 1
          ∨ sa.end_page > INT_MAX - 1 ∨ sa.end_page < sa.start_page ∨ sa.page_len < 1
          ∨ sa.page_len > INT_MAX - 1) →
        ∀ out, process_args_cmdline progname args flag_parse stat = out →
          ∃ msg, out = .exited 3 msg true)) ∧
    (∀ (progname : String) (args : List String) (flag_parse : List String → ParseOutcome)
      (stat : String → StatResult) (sa : sp_args) (code : Nat) (msg : String) (usage : Bool),
      flag_parse args = .stopped sa code msg usage →
      process_args_cmdline progname args flag_parse stat = .exited code msg usage) ∧
    INT_MAX = 4294967296 := by
  refine ⟨?_, ?_, by decide⟩
  · intro progname args flag_parse stat sa positional hp h1 h3
    rw [process_args_cmdline_parsed progname args flag_parse stat sa positional hp]
    have h := checks_exit_code_3 progname args sa positional stat h1 h3
    exact ⟨h.1, h.2.1⟩
  · intro progname args flag_parse stat sa code msg usage hp
    exact process_args_cmdline_stopped progname args flag_parse stat sa code msg usage hp

/-- C10 amended, at inputs: `selpg -s 3 -e 2`, which the flag library accepts
and where the end page is below the start page, and `selpg -s 0 -e 2 -x`,
which it rejects. -/
theorem C10_exit_code_3_amended_witness :
    ((∃ msg usage, process_args_cmdline "selpg" ["selpg", "-s", "3", "-e", "2"]
        (parsed_as (cfg 3 2 10 "l") []) statFound = .exited 3 msg usage) ↔
      ((cfg 3 2 10 "l").start_page < 1 ∨ (cfg 3 2 10 "l").start_page > INT_MAX - 1
        ∨ (cfg 3 2 10 "l").end_page < 1 ∨ (cfg 3 2 10 "l").end_page > INT_MAX - 1
        ∨ (cfg 3 2 10 "l").end_page < (cfg 3 2 10 "l").start_page
        ∨ (cfg 3 2 10 "l").page_len < 1 ∨ (cfg 3 2 10 "l").page_len > INT_MAX - 1)) ∧
    process_args_cmdline "selpg" ["selpg", "-s", "3", "-e", "2"]
      (parsed_as (cfg 3 2 10 "l") []) statFound
      = .exited 3 "selpg: invalid end page %!s(int=2)\n" true ∧
    process_args_cmdline "selpg" ["selpg", "-s", "0", "-e", "2", "-x"]
      (rejected_as (cfg 0 2 10 "l") "unknown shorthand flag: 'x' in -x") statFound
      = .exited 2 "unknown shorthand flag: 'x' in -x" true :=
  ⟨((C10_exit_code_3_amended.1 "selpg" ["selpg", "-s", "3", "-e", "2"]
      (parsed_as (cfg 3 2 10 "l") []) statFound (cfg 3 2 10 "l") [] rfl
      (by decide) (by decide)).1), by decide,
    C10_exit_code_3_amended.2.1 "selpg" ["selpg", "-s", "0", "-e", "2", "-x"]
      (rejected_as (cfg 0 2 10 "l") "unknown shorthand flag: 'x' in -x") statFound
      (cfg 0 2 10 "l") 2 "unknown shorthand flag: 'x' in -x" true rfl⟩

theorem write_selected_print (sa : sp_args) (wfail : Nat → Bool) (st : RunState)
    (c : List Byte) (st1 : RunState) :
    (write_selected sa wfail st c = .cont st1 → st1.printed_errors = st.printed_errors) ∧
    (write_selected sa wfail st c = .exit7 st1 →
      st1.printed_errors = st.printed_errors ∧ st1.writes = st.writes + 1) := by
  unfold write_selected
  split_ifs
  · exact ⟨fun h => (by cases h), fun h => (by cases h; exact ⟨rfl, rfl⟩)⟩
  · exact ⟨fun h => (by cases h; rfl), fun h => (by cases h)⟩
  · exact ⟨fun h => (by cases h; rfl), fun h => (by cases h)⟩

theorem lines_body_print (sa : sp_args) : print_spec true (fun w => lines_body sa w) := by
  intro wfail st c st1
  have key : ∀ st2 : RunState, st2.printed_errors = st.printed_errors →
      st2.writes = st.writes →
      ((match write_selected sa wfail st2 c with
        | .cont st3 => Step.cont st3
        | .exit7 st3 => Step.exit7
            { st3 with printed_errors := st3.printed_errors ++ [st2.writes] }) = .cont st1 →
        st1.printed_errors = st.printed_errors) ∧
      ((match write_selected sa wfail st2 c with
        | .cont st3 => Step.cont st3
        | .exit7 st3 => Step.exit7
            { st3 with printed_errors := st3.printed_errors ++ [st2.writes] }) = .exit7 st1 →
        st1.printed_errors = st.printed_errors ++ [st1.writes - 1]) := by
    intro st2 hp hw
    cases hws : write_selected sa wfail st2 c with
    | cont s3 =>
      have := (write_selected_print sa wfail st2 c s3).1 hws
      refine ⟨fun h => ?_, fun h => by cases h⟩
      simp only [Step.cont.injEq] at h
      rw [← h, this, hp]
    | exit7 s3 =>
      obtain ⟨p1, p2⟩ := (write_selected_print sa wfail st2 c s3).2 hws
      refine ⟨fun h => (by cases h), fun h => ?_⟩
      simp only [Step.exit7.injEq] at h
      rw [← h]
      simp only [p1, hp, p2, Nat.add_sub_cancel]
  by_cases hgt : st.line_ctr + 1 > sa.page_len
  · have := key { st with page_ctr := st.page_ctr + 1, line_ctr := 1 } rfl rfl
    simpa only [lines_body, hgt, if_true] using this
  · have := key { st with line_ctr := st.line_ctr + 1 } rfl rfl
    simpa only [lines_body, hgt, if_false] using this

theorem ff_body_print (sa : sp_args) : print_spec false (fun w => ff_body sa w) := by
  intro wfail st c st1
  simp only [ff_body]
  cases hws : write_selected sa wfail st c with
  | cont s3 =>
    have := (write_selected_print sa wfail st c s3).1 hws
    refine ⟨fun h => ?_, fun h => by cases h⟩
    simp only [Step.cont.injEq] at h
    rw [← h]; exact this
  | exit7 s3 =>
    obtain ⟨p1, _⟩ := (write_selected_print sa wfail st c s3).2 hws
    refine ⟨fun h => (by cases h), fun h => ?_⟩
    simp only [Step.exit7.injEq] at h
    rw [← h]; simpa using p1

theorem mode_body_print (sa : sp_args) :
    print_spec (decide (sa.page_type = "l"))
      (fun w => if sa.page_type = "l" then lines_body sa w else ff_body sa w) := by
  by_cases h : sa.page_type = "l"
  · simpa only [h, if_true, decide_True] using lines_body_print sa
  · simpa only [h, if_false, decide_False] using ff_body_print sa

/-- What a run has printed on the standard output besides the chunks. -/
theorem run_chunks_print (pr : Bool) (body : (Nat → Bool) → RunState → List Byte → Step)
    (hp : print_spec pr body) (wfail : Nat → Bool) :
    ∀ (cs : List (List Byte)) (st s1 : RunState),
      (run_chunks (body wfail) st cs = .cont s1 → s1.printed_errors = st.printed_errors) ∧
      (run_chunks (body wfail) st cs = .exit7 s1 →
        s1.printed_errors
          = if pr then st.printed_errors ++ [s1.writes - 1] else st.printed_errors) := by
  intro cs
  induction cs with
  | nil =>
    intro st s1
    refine ⟨fun h => ?_, fun h => (by simp [run_chunks] at h)⟩
    simp only [run_chunks, Step.cont.injEq] at h
    rw [← h]
  | cons c cs ih =>
    intro st s1
    simp only [run_chunks]
    cases hb : body wfail { st with reads := st.reads + 1 } c with
    | cont st1 =>
      have h1 := (hp wfail { st with reads := st.reads + 1 } c st1).1 hb
      simp only at h1
      obtain ⟨i1, i2⟩ := ih st1 s1
      simp only
      rw [h1] at i1 i2
      exact ⟨i1, i2⟩
    | exit7 st1 =>
      have h1 := (hp wfail { st with reads := st.reads + 1 } c st1).2 hb
      simp only at h1
      simp only
      refine ⟨fun h => (by cases h), fun h => ?_⟩
      simp only [Step.exit7.injEq] at h
      rw [← h]; exact h1

/-- A sink whose `Write` may fail (`wfail n` for the call number `n`), in
both modes and for every configuration and input: the run ends with exit code
0 or 7; it ends with 7 exactly when one of the `fout.Write` calls that the run
on a never failing sink makes is a failing one, and with 0 it is that run;
when it ends with 7, the input is `x ++ c ++ y` with `c` the chunk read last,
the run has done on `x` what the never failing run does on `x`, every
`fout.Write` call before was accepted, the failing call is counted and is the
last `fout.Write`, nothing was appended by it, and no chunk after `c` was read;
in lines mode the error of the failing call is then printed on `os.Stdout`,
in form-feed mode nothing is. -/
theorem write_failure_run (progname : String) (sa : sp_args) (wfail : Nat → Bool)
    (input : List Byte) :
    ∃ r rok, process_input progname sa wfail input = some r ∧
      process_input progname sa okSink input = some rok ∧
      (r.exit_code = 0 ∨ r.exit_code = 7) ∧
      (r.exit_code = 7 ↔ ∃ n, n < rok.writes ∧ wfail n = true) ∧
      ((∀ n, wfail n = false) → r.exit_code ≠ 7) ∧
      (r.exit_code = 0 → r = rok) ∧ rok.printed_errors = [] ∧
      (r.exit_code = 7 →
        ∃ x c y r0, input = x ++ c ++ y ∧
          readString (delimOf sa) (c ++ y) = some (c, y) ∧
          (chunks (delimOf sa) x).flatten = x ∧
          process_input progname sa okSink x = some r0 ∧
          (∀ n, n < r0.writes → wfail n = false) ∧ wfail r0.writes = true ∧
          r.writes = r0.writes + 1 ∧ r.out = r0.out ∧
          r.reads = (chunks (delimOf sa) x).length + 1 ∧ r.stderr = "" ∧
          r.printed_errors = if sa.page_type = "l" then [r0.writes] else []) := by
  have hb := mode_body_spec sa
  have hpr := mode_body_print sa
  obtain ⟨sok, hok⟩ := run_chunks_okSink _ hb (chunks (delimOf sa) input)
    { page_ctr := 1, line_ctr := 0, out := [], writes := 0, reads := 0 }
  have e1 := process_input_eq progname sa wfail input
  have e2 := process_input_eq progname sa okSink input
  rw [hok] at e2
  cases hrun : run_chunks (if sa.page_type = "l" then lines_body sa wfail else ff_body sa wfail)
      { page_ctr := 1, line_ctr := 0, out := [], writes := 0, reads := 0 }
      (chunks (delimOf sa) input) with
  | cont s1 =>
    rw [hrun] at e1
    obtain ⟨i1, _, i3⟩ := run_chunks_cont _ hb wfail _ _ _ hrun
    rw [hok] at i1
    simp only [Step.cont.injEq] at i1
    subst i1
    have hpo := (run_chunks_print _ _ hpr okSink _ _ _).1 hok
    refine ⟨_, _, e1, e2, Or.inl rfl, ?_, ?_, fun _ => rfl, ?_, ?_⟩
    · constructor
      · intro h; simp [finish] at h
      · rintro ⟨n, hn, hw⟩
        have := i3 n (Nat.zero_le _) (by simpa [finish] using hn)
        rw [this] at hw; cases hw
    · intro _ h; simp [finish] at h
    · simpa [finish] using hpo
    · intro h; simp [finish] at h
  | exit7 s1 =>
    rw [hrun] at e1
    obtain ⟨pre, c, post, s0, d1, d2, d3, _, d5, d6, d7, d8, d9⟩ :=
      run_chunks_exit7 _ hb wfail _ _ _ hrun
    have hlt := run_chunks_exit7_lt _ hb wfail _ _ _ sok hrun hok
    simp only at d3 d9
    have hpo := (run_chunks_print _ _ hpr okSink _ _ sok).1 hok
    have hpx := (run_chunks_print _ _ hpr wfail _ _ s1).2 hrun
    refine ⟨_, _, e1, e2, Or.inr rfl, ?_, ?_, ?_, ?_, ?_⟩
    · constructor
      · intro _
        exact ⟨s0.writes, by simp only [finish]; omega, d5⟩
      · intro _; rfl
    · intro h; rw [h s0.writes] at d5; cases d5
    · intro h; simp [finish] at h
    · simpa [finish] using hpo
    · intro _
      obtain ⟨tail, _, t2⟩ := uptoLastDelim_split (delimOf sa) input
      rw [← chunks_flatten, d1] at t2
      have hshape : ∀ c1 ∈ pre ++ c :: post, ∃ body, c1 = body ++ [delimOf sa]
          ∧ delimOf sa ∉ body := by
        intro c1 hc1
        rw [← d1] at hc1
        exact chunks_shape (delimOf sa) input c1 hc1
      obtain ⟨body, b1, b2⟩ := hshape c (by simp)
      have hx : chunks (delimOf sa) pre.flatten = pre := by
        have := chunks_flatten_append (delimOf sa) [] pre
          (fun c1 hc1 => hshape c1 (by simp [hc1]))
        simpa [chunks] using this
      have e3 := process_input_eq progname sa okSink pre.flatten
      rw [hx, d2] at e3
      refine ⟨pre.flatten, c, post.flatten ++ tail, _, ?_, ?_, ?_, e3, ?_, d5, ?_, ?_, ?_, rfl,
        ?_⟩
      · rw [t2]; simp
      · rw [b1]
        have := (chunks_chunk_append (delimOf sa) (post.flatten ++ tail) body b2).2
        simpa using this
      · rw [hx]
      · intro n hn
        exact d3 n (Nat.zero_le _) (by simpa [finish] using hn)
      · simp only [finish]; exact d7
      · simp only [finish]; exact d6
      · rw [hx]; simp only [finish]; omega
      · simp only [finish]
        rw [hpx, d7]
        by_cases hl : sa.page_type = "l"
        · simp [hl]
        · simp [hl]

/-- C14: a failing write in lines mode is followed by a further write. With
three lines, one line a page, pages 1 to 3, the standard output as sink
(`print_dest` empty) and a sink whose second `Write` fails, the lines loop
stops with exit code 7 after two reads and two `fout.Write` calls, with the
first line on the sink, and it has printed the error of the failing call with
`fmt.Println` on `os.Stdout`, the sink itself; on the same input with form
feeds the form-feed loop stops in the same way and prints nothing. -/
theorem C14_write_failure_prints :
    (cfg 1 3 1 "l").print_dest = "" ∧
    process_input "selpg" (cfg 1 3 1 "l") (failAt 1) (ascii "a\nb\nc\n")
      = some { out := ascii "a\n", page_ctr := 2, line_ctr := 1, writes := 2, reads := 2,
               stderr := "", exit_code := 7, printed_errors := [1] } ∧
    process_input "selpg" (cfg 1 3 1 "f") (failAt 1) (ascii "a\x0cb\x0cc\x0c")
      = some { out := ascii "a\x0c", page_ctr := 2, line_ctr := 0, writes := 2, reads := 2,
               stderr := "", exit_code := 7, printed_errors := [] } := by
  decide

end Selpg
